import Mathlib

/-!
# THttpServer: request bridge and request router

A shallow embedding of `net/http/src/THttpServer.cxx`:

* `THttpCallArg` is the request object with its response fields;
* `SetPathAndFileName` and `FillHttpHeader` are its two members defined in the
  source file;
* `GetMimeType` and `IsFileRequested` are the two pure resolvers;
* `CreateEngine` is the engine factory, run against a class loader given by its
  interface;
* `ProcessRequest` is the router, run against a sniffer given by its interface;
* `ExecuteHttp` and `ProcessRequests` are the bridge between caller threads and
  the main thread; they act on a world made of the server object and the memory
  holding the request objects, and they emit the trace of the calls they make.

Text (`TString`, `const char *`, `std::string`) is a list of characters without
an embedded NUL; a null `const char *` is `none`.
-/

namespace HttpServer

/-- Text: the characters of a `TString` or of a C string. -/
abbrev Str := List Char

/-! ## THttpCallArg -/

/-- The data members of `THttpCallArg`, as listed by its constructor, apart
from the condition `fCond`, whose use shows in the trace of the bridge.
`fBinData` is the `void *` buffer (`none` is the null pointer) and
`fBinDataLength` its `Long_t` length. -/
structure THttpCallArg where
  fTopName : Str
  fPathName : Str
  fFileName : Str
  fQuery : Str
  fContentType : Str
  fContentEncoding : Str
  fContent : Str
  fBinData : Option (List Nat)
  fBinDataLength : Int
deriving DecidableEq, Repr

/-- The constructor `THttpCallArg::THttpCallArg()`: every text member empty, no
binary buffer. -/
def THttpCallArg.ctor : THttpCallArg :=
  { fTopName := [], fPathName := [], fFileName := [], fQuery := [],
    fContentType := [], fContentEncoding := [], fContent := [],
    fBinData := none, fBinDataLength := 0 }

/-- Modelled from the spec: the header `THttpServer.h`, which defines the inline
members `SetContentType`, `SetFile`, `SetXml`, `SetJson`, `Set404` and `Is404`
of `THttpCallArg`, is not among the sources. The response carries "a
content-type tag" and "a terminal status (ok / not-found)"; the class has no
member for the status besides `fContentType` (see the constructor), so each
marker is a reserved value of the content-type tag. The four reserved values
are not known and are taken as given. -/
structure ContentTags where
  file : Str
  xml : Str
  json : Str
  notFound : Str
deriving DecidableEq, Repr

/-- Modelled from the spec: `SetContentType` (defined in the absent header)
stores the content-type tag of the response. -/
def THttpCallArg.SetContentType (a : THttpCallArg) (typ : Str) : THttpCallArg :=
  { a with fContentType := typ }

/-- Modelled from the spec: `SetFile` (defined in the absent header) marks the
response as "ok, serve this file". -/
def THttpCallArg.SetFile (K : ContentTags) (a : THttpCallArg) : THttpCallArg :=
  a.SetContentType K.file

/-- Modelled from the spec: `SetXml` (defined in the absent header) marks the
response as "ok, XML". -/
def THttpCallArg.SetXml (K : ContentTags) (a : THttpCallArg) : THttpCallArg :=
  a.SetContentType K.xml

/-- Modelled from the spec: `SetJson` (defined in the absent header) marks the
response as "ok, JSON". -/
def THttpCallArg.SetJson (K : ContentTags) (a : THttpCallArg) : THttpCallArg :=
  a.SetContentType K.json

/-- Modelled from the spec: `Set404` (defined in the absent header) marks the
response as "not found". -/
def THttpCallArg.Set404 (K : ContentTags) (a : THttpCallArg) : THttpCallArg :=
  a.SetContentType K.notFound

/-- Modelled from the spec: `Is404` (defined in the absent header) tells whether
the response is marked as "not found". -/
def THttpCallArg.Is404 (K : ContentTags) (a : THttpCallArg) : Bool :=
  decide (a.fContentType = K.notFound)

/-! ## GetMimeType -/

/-- The static table `builtin_mime_types` of `THttpServer::GetMimeType`, without
its `NULL` end mark: extension, `ext_len`, `mime_type`. -/
def builtin_mime_types : List (Str × Nat × Str) :=
  [ (".xml".toList, 4, "text/xml".toList),
    (".json".toList, 5, "application/json".toList),
    (".bin".toList, 4, "application/x-binary".toList),
    (".gif".toList, 4, "image/gif".toList),
    (".jpg".toList, 4, "image/jpeg".toList),
    (".png".toList, 4, "image/png".toList),
    (".html".toList, 5, "text/html".toList),
    (".htm".toList, 4, "text/html".toList),
    (".shtm".toList, 5, "text/html".toList),
    (".shtml".toList, 6, "text/html".toList),
    (".css".toList, 4, "text/css".toList),
    (".js".toList, 3, "application/x-javascript".toList),
    (".ico".toList, 4, "image/x-icon".toList),
    (".jpeg".toList, 5, "image/jpeg".toList),
    (".svg".toList, 4, "image/svg+xml".toList),
    (".txt".toList, 4, "text/plain".toList),
    (".torrent".toList, 8, "application/x-bittorrent".toList),
    (".wav".toList, 4, "audio/x-wav".toList),
    (".mp3".toList, 4, "audio/x-mp3".toList),
    (".mid".toList, 4, "audio/mid".toList),
    (".m3u".toList, 4, "audio/x-mpegurl".toList),
    (".ogg".toList, 4, "application/ogg".toList),
    (".ram".toList, 4, "audio/x-pn-realaudio".toList),
    (".xslt".toList, 5, "application/xml".toList),
    (".xsl".toList, 4, "application/xml".toList),
    (".ra".toList, 3, "audio/x-pn-realaudio".toList),
    (".doc".toList, 4, "application/msword".toList),
    (".exe".toList, 4, "application/octet-stream".toList),
    (".zip".toList, 4, "application/x-zip-compressed".toList),
    (".xls".toList, 4, "application/excel".toList),
    (".tgz".toList, 4, "application/x-tar-gz".toList),
    (".tar".toList, 4, "application/x-tar".toList),
    (".gz".toList, 3, "application/x-gunzip".toList),
    (".arj".toList, 4, "application/x-arj-compressed".toList),
    (".rar".toList, 4, "application/x-arj-compressed".toList),
    (".rtf".toList, 4, "application/rtf".toList),
    (".pdf".toList, 4, "application/pdf".toList),
    (".swf".toList, 4, "application/x-shockwave-flash".toList),
    (".mpg".toList, 4, "video/mpeg".toList),
    (".webm".toList, 5, "video/webm".toList),
    (".mpeg".toList, 5, "video/mpeg".toList),
    (".mov".toList, 4, "video/quicktime".toList),
    (".mp4".toList, 4, "video/mp4".toList),
    (".m4v".toList, 4, "video/x-m4v".toList),
    (".asf".toList, 4, "video/x-ms-asf".toList),
    (".avi".toList, 4, "video/x-msvideo".toList),
    (".bmp".toList, 4, "image/bmp".toList),
    (".ttf".toList, 4, "application/x-font-ttf".toList) ]

/-- The `for` loop of `GetMimeType` over the rest of the table: an entry is
skipped when `path_len <= ext_len`; otherwise the last `ext_len` characters of
`path` are compared with the extension (`strcmp`), and the first entry that
agrees gives the type. At the end of the table the result is `"text/plain"`. -/
def GetMimeTypeLoop (path : Str) : List (Str × Nat × Str) → Str
  | [] => "text/plain".toList
  | (extension, ext_len, mime_type) :: rest =>
    if path.length ≤ ext_len then GetMimeTypeLoop path rest
    else if path.drop (path.length - ext_len) = extension then mime_type
    else GetMimeTypeLoop path rest

/-- `THttpServer::GetMimeType(path)`. -/
def GetMimeType (path : Str) : Str :=
  GetMimeTypeLoop path builtin_mime_types

/-! ## The server object and IsFileRequested -/

/-- The data members of `THttpServer` that the modelled methods read or write.
`σ` is the state of the sniffer object behind `fSniffer`, `ε` the type of the
engine objects in `fEngines`; `fCallArgs` holds the addresses of the queued
requests, first in front. The timer and the mutex carry no data. -/
structure THttpServer (σ ε : Type) where
  fEngines : List ε
  fSniffer : σ
  fMainThrdId : Nat
  fHttpSys : Str
  fRootSys : Str
  fJSRootIOSys : Str
  fTopName : Str
  fDefaultPage : Str
  fDrawPage : Str
  fCallArgs : List Nat

/-- `std::string::rfind(pat)`: the highest position at which `pat` occurs in
`s`, `none` (`npos`) when it occurs nowhere. -/
def rfind : Str → Str → Option Nat
  | [], pat => if pat = [] then some 0 else none
  | c :: cs, pat =>
    match rfind cs pat with
    | some pos => some (pos + 1)
    | none => if pat.isPrefixOf (c :: cs) then some 0 else none

/-- `THttpServer::IsFileRequested(uri, res)`: the boolean result together with
the value of `res` after the call (`res` is written only on a match). -/
def IsFileRequested {σ ε : Type} (srv : THttpServer σ ε) (uri : Option Str) (res : Str) :
    Bool × Str :=
  match uri with
  | none => (false, res)
  | some fname =>
    if fname.length = 0 then (false, res)
    else
      match rfind fname "httpsys/".toList with
      | some pos => (true, srv.fHttpSys ++ fname.drop (pos + 7))
      | none =>
        match (if srv.fRootSys.isEmpty then none else rfind fname "rootsys/".toList) with
        | some pos => (true, srv.fRootSys ++ fname.drop (pos + 7))
        | none =>
          match (if srv.fJSRootIOSys.isEmpty then none
                 else rfind fname "jsrootiosys/".toList) with
          | some pos => (true, srv.fJSRootIOSys ++ fname.drop (pos + 11))
          | none => (false, res)

/-! ## The sniffer and the trace -/

/-- The two sinks a hierarchy walk can write to: `TRootSnifferStoreXml` and
`TRootSnifferStoreJson`, each built over `arg->fContent`. -/
inductive StoreKind where
  | xml
  | json
deriving DecidableEq, Repr

/-- Modelled from the spec: `TRootSniffer` and its stores are not among the
sources; the sniffer is consumed through its interface, "CanExplore(path)->bool,
CanDraw(path)->bool, WalkHierarchy(topName, path, sink), Produce(path, leafName,
query, binaryIn) -> (outcome, payload)". The two queries read the sniffer state;
a walk yields the text its sink appends to the response body; `Produce` gets the
references to `fBinData` and `fBinDataLength` and returns the new sniffer state,
its boolean outcome and the two referenced values after the call. -/
structure TRootSniffer (σ : Type) where
  CanExploreItem : σ → Str → Bool
  CanDrawItem : σ → Str → Bool
  ScanHierarchy : σ → Str → Str → StoreKind → Str
  Produce : σ → Str → Str → Str → Option (List Nat) → Int →
    σ × Bool × Option (List Nat) × Int

/-- The calls made by the modelled methods, in the order they are made. A
request object is named by its address; `routed p` is the return of
`ProcessRequest(arg)` for the request at `p`, `add` and `removeFirst` are the
two operations on `fCallArgs`, `signal` and `wait` those on `arg->fCond`. -/
inductive Event where
  | canExploreItem (path : Str)
  | canDrawItem (path : Str)
  | scanHierarchy (topname path : Str) (store : StoreKind)
  | produce (path file query : Str)
  | lock
  | unLock
  | add (p : Nat)
  | removeFirst (p : Nat)
  | routed (p : Nat)
  | signal (p : Nat)
  | wait (p : Nat)
  | engineProcess (i : Nat)
  | error (location msg : Str)
deriving DecidableEq, Repr

/-! ## ProcessRequest -/

/-- What one `ProcessRequest` call leaves behind: the request object, the
sniffer state and the calls made on the sniffer. -/
structure Routed (σ : Type) where
  arg : THttpCallArg
  sniffer : σ
  trace : List Event

/-- The name handed to `ScanHierarchy`: `fTopName.Data()` of the server,
replaced by the request's `fTopName` when that has positive length. -/
def topname {σ ε : Type} (srv : THttpServer σ ε) (arg : THttpCallArg) : Str :=
  if arg.fTopName.length > 0 then arg.fTopName else srv.fTopName

/-- The format string of the `h.xml` branch with `%s` filled in. -/
def xmlHeader (path : Str) : Str :=
  "<?xml version=\"1.0\" encoding=\"UTF-8\"?>\n".toList ++
  "<dabc version=\"2\" xmlns:dabc=\"http://dabc.gsi.de/xhtml\" path=\"".toList ++ path ++
  "\">\n".toList

/-- `THttpServer::ProcessRequest(arg)`. -/
def ProcessRequest {σ ε : Type} (K : ContentTags) (S : TRootSniffer σ)
    (srv : THttpServer σ ε) (arg : THttpCallArg) : Routed σ :=
  if arg.fFileName.isEmpty || arg.fFileName = "index.htm".toList then
    let explore := S.CanExploreItem srv.fSniffer arg.fPathName
    -- `&&` calls `CanDrawItem` only when `CanExploreItem` returned false
    let usedefaultpage := !(!explore && S.CanDrawItem srv.fSniffer arg.fPathName)
    { arg := ({ arg with
                fContent := if usedefaultpage then srv.fDefaultPage else srv.fDrawPage }).SetFile K,
      sniffer := srv.fSniffer,
      trace := Event.canExploreItem arg.fPathName ::
        (if explore then [] else [Event.canDrawItem arg.fPathName]) }
  else
    let buf := IsFileRequested srv (some arg.fFileName) arg.fFileName
    if buf.1 then
      { arg := ({ arg with fContent := buf.2 }).SetFile K,
        sniffer := srv.fSniffer, trace := [] }
    else if arg.fFileName = "h.xml".toList then
      let walk := S.ScanHierarchy srv.fSniffer (topname srv arg) arg.fPathName StoreKind.xml
      { arg := ({ arg with
                  fContent := xmlHeader arg.fPathName ++ walk ++ "</dabc>\n".toList }).SetXml K,
        sniffer := srv.fSniffer,
        trace := [Event.scanHierarchy (topname srv arg) arg.fPathName StoreKind.xml] }
    else if arg.fFileName = "h.json".toList then
      let walk := S.ScanHierarchy srv.fSniffer (topname srv arg) arg.fPathName StoreKind.json
      { arg := ({ arg with
                  fContent := arg.fContent ++ "\x7b\n".toList ++ walk ++
                    "\n\x7d\n".toList }).SetJson K,
        sniffer := srv.fSniffer,
        trace := [Event.scanHierarchy (topname srv arg) arg.fPathName StoreKind.json] }
    else
      let r := S.Produce srv.fSniffer arg.fPathName arg.fFileName arg.fQuery
        arg.fBinData arg.fBinDataLength
      let arg1 := { arg with fBinData := r.2.2.1, fBinDataLength := r.2.2.2 }
      if r.2.1 then
        { arg := arg1.SetContentType (GetMimeType arg.fFileName),
          sniffer := r.1,
          trace := [Event.produce arg.fPathName arg.fFileName arg.fQuery] }
      else
        { arg := arg1.Set404 K,
          sniffer := r.1,
          trace := [Event.produce arg.fPathName arg.fFileName arg.fQuery] }

/-! ## The bridge: ExecuteHttp and ProcessRequests -/

/-- The server object together with the memory that holds the request objects,
by address. Every address names a live request object. -/
structure World (σ ε : Type) where
  srv : THttpServer σ ε
  mem : Nat → THttpCallArg

/-- The request memory with the object at `p` replaced. -/
def setArg (mem : Nat → THttpCallArg) (p : Nat) (a : THttpCallArg) : Nat → THttpCallArg :=
  fun q => if q = p then a else mem q

/-- `ProcessRequest(arg)` for the request object at address `p`: the object is
rewritten in place and the sniffer moves to its new state. -/
def processAt {σ ε : Type} (K : ContentTags) (S : TRootSniffer σ) (w : World σ ε) (p : Nat) :
    World σ ε × List Event :=
  let r := ProcessRequest K S w.srv (w.mem p)
  ({ srv := { w.srv with fSniffer := r.sniffer }, mem := setArg w.mem p r.arg },
   r.trace ++ [Event.routed p])

/-- Where a call of `ExecuteHttp` stands when the model stops following it:
`returned b` after `return b`; `blocked` inside `arg->fCond.Wait()`, from which
the caller goes on to `return kTRUE` once the wait ends. -/
inductive CallState where
  | returned (value : Bool)
  | blocked
deriving DecidableEq, Repr

/-- `THttpServer::ExecuteHttp(arg)` called by thread `self` (`TThread::SelfId()`)
for the request at address `p`, followed up to its return or up to its wait. -/
def ExecuteHttp {σ ε : Type} (K : ContentTags) (S : TRootSniffer σ) (w : World σ ε)
    (self p : Nat) : World σ ε × List Event × CallState :=
  if w.srv.fMainThrdId = self then
    let r := processAt K S w p
    (r.1, r.2, CallState.returned true)
  else
    ({ w with srv := { w.srv with fCallArgs := w.srv.fCallArgs ++ [p] } },
     [Event.lock, Event.add p, Event.unLock, Event.wait p],
     CallState.blocked)

/-- Modelled from the spec: `THttpEngine` is not among the sources; an engine is
ticked through `Process()`, which lets it "perform engine-specific
housekeeping" on its own state. -/
structure THttpEngine (ε : Type) where
  Process : ε → ε

/-- The `while (true)` loop of `ProcessRequests`, by recursion on the content of
`fCallArgs` (no other thread appends while the loop runs): under the lock the
first request is taken off the list, then it is processed and its condition is
signaled; on an empty list the loop ends. -/
def ProcessRequestsLoop {σ ε : Type} (K : ContentTags) (S : TRootSniffer σ) :
    List Nat → World σ ε → World σ ε × List Event
  | [], w => (w, [Event.lock, Event.unLock])
  | p :: rest, w =>
    let r := processAt K S { w with srv := { w.srv with fCallArgs := rest } } p
    let t := ProcessRequestsLoop K S rest r.1
    (t.1, [Event.lock, Event.removeFirst p, Event.unLock] ++ r.2 ++ [Event.signal p] ++ t.2)

/-- `THttpServer::ProcessRequests()` called by thread `self`. -/
def ProcessRequests {σ ε : Type} (K : ContentTags) (S : TRootSniffer σ) (E : THttpEngine ε)
    (w : World σ ε) (self : Nat) : World σ ε × List Event :=
  if w.srv.fMainThrdId ≠ self then
    (w, [Event.error "ProcessRequests".toList
           "Should be called only from main ROOT thread".toList])
  else
    let t := ProcessRequestsLoop K S w.srv.fCallArgs w
    ({ t.1 with srv := { t.1.srv with fEngines := t.1.srv.fEngines.map E.Process } },
     t.2 ++ (List.range t.1.srv.fEngines.length).map Event.engineProcess)

/-- Requests submitted one after another: each pair is the calling thread and
the address of its request. -/
def submitAll {σ ε : Type} (K : ContentTags) (S : TRootSniffer σ) :
    World σ ε → List (Nat × Nat) → World σ ε × List Event
  | w, [] => (w, [])
  | w, (self, p) :: rest =>
    let r := ExecuteHttp K S w self p
    let t := submitAll K S r.1 rest
    (t.1, r.2.1 ++ t.2)

/-- The addresses of the requests routed in a trace, in order. -/
def routedOf : List Event → List Nat
  | [] => []
  | Event.routed p :: t => p :: routedOf t
  | _ :: t => routedOf t

/-- The calls on the sniffer. -/
def Event.isSniffer : Event → Bool
  | Event.canExploreItem _ => true
  | Event.canDrawItem _ => true
  | Event.scanHierarchy _ _ _ => true
  | Event.produce _ _ _ => true
  | _ => false

/-! ## A small configuration to run the model on -/

/-- The reserved content-type values used in the examples. -/
def exampleTags : ContentTags :=
  { file := "_file_".toList, xml := "text/xml".toList,
    json := "application/json".toList, notFound := "_404_".toList }

/-- A sniffer over a two-node hierarchy: the path `"hist"` cannot be explored
but can be drawn, a walk emits one line per node, in the form of its store, and
`Produce` makes a payload for `"get.bin"` only. -/
def exampleSniffer : TRootSniffer Nat :=
  { CanExploreItem := fun _ path => decide (path ≠ "hist".toList),
    CanDrawItem := fun _ path => decide (path = "hist".toList),
    ScanHierarchy := fun _ top _ store =>
      match store with
      | StoreKind.xml => "<item _name=\"".toList ++ top ++ "\"/>\n<item _name=\"hist\"/>".toList
      | StoreKind.json => "\"".toList ++ top ++ "\" : 1,\n\"hist\" : 2".toList,
    Produce := fun s _ file _ bin len =>
      if file = "get.bin".toList then (s + 1, true, some [1, 2, 3], 3)
      else (s, false, bin, len) }

/-- A sniffer over an empty hierarchy: nothing can be explored or drawn, a walk
emits no text and `Produce` declines. -/
def silentSniffer : TRootSniffer Nat :=
  { CanExploreItem := fun _ _ => false,
    CanDrawItem := fun _ _ => false,
    ScanHierarchy := fun _ _ _ _ => [],
    Produce := fun s _ _ _ bin len => (s, false, bin, len) }

/-- A server with main thread 0, no engine and an empty queue. -/
def exampleServer : THttpServer Nat Nat :=
  { fEngines := [], fSniffer := 0, fMainThrdId := 0,
    fHttpSys := "/opt/sys".toList, fRootSys := [], fJSRootIOSys := "/opt/js".toList,
    fTopName := "ROOT".toList,
    fDefaultPage := "/opt/sys/files/main.htm".toList,
    fDrawPage := "/opt/sys/files/single.htm".toList,
    fCallArgs := [] }

/-- An engine whose tick counts. -/
def exampleEngine : THttpEngine Nat :=
  { Process := fun n => n + 1 }

/-- A request as built by an engine: constructed, then given its path, file
name and top name. -/
def request (path file top : String) : THttpCallArg :=
  { THttpCallArg.ctor with fPathName := path.toList, fFileName := file.toList,
                           fTopName := top.toList }

/-- A world around `exampleServer`: the request at address 10 asks for the page
of `"hist"`, the one at 11 for the JSON snapshot, every other one for
`"get.bin"`. -/
def exampleWorld : World Nat Nat :=
  { srv := exampleServer,
    mem := fun p =>
      if p = 10 then request "hist" "index.htm" ""
      else if p = 11 then request "" "h.json" ""
      else request "hist" "get.bin" "" }

/-- `strrchr(s, c)`: the position of the last `c` in `s`, `none` (the null
pointer) when `c` does not occur. -/
def strrchr : Str → Char → Option Nat
  | [], _ => none
  | d :: ds, c =>
    match strrchr ds c with
    | some pos => some (pos + 1)
    | none => if d = c then some 0 else none

/-- The `while` loop of `SetPathAndFileName`, on the text between `fullpath` and
`rslash`: `fullpath` moves on as long as it has not reached `rslash` and points
to a `'/'`. The result is the text left between the two pointers. -/
def skipSlashes : Str → Str
  | [] => []
  | c :: cs => if c = '/' then skipSlashes cs else c :: cs

/-- `THttpCallArg::SetPathAndFileName(fullpath)`. -/
def THttpCallArg.SetPathAndFileName (a : THttpCallArg) (fullpath : Option Str) :
    THttpCallArg :=
  let a0 := { a with fPathName := [], fFileName := [] }
  match fullpath with
  | none => a0
  | some s =>
    match strrchr s '/' with
    | none => { a0 with fFileName := s }
    | some rslash =>
      let path := a0.fPathName ++ skipSlashes (s.take rslash)
      { a0 with fPathName := if path = "/".toList then [] else path,
                fFileName := s.drop (rslash + 1) }

/-- The conversion `%ld` of `printf`: the decimal digits of the number, after a
minus sign when it is negative. -/
def formatLd (n : Int) : Str :=
  (toString n).toList

/-- `THttpCallArg::FillHttpHeader(hdr, normal)`: the value of `hdr` after the
call. `GetContentLength`, defined in the absent header, is taken as given;
`GetContentType()` is the text of `fContentType`. -/
def THttpCallArg.FillHttpHeader (K : ContentTags) (GetContentLength : THttpCallArg → Int)
    (a : THttpCallArg) (normal : Bool) : Str :=
  let header := if normal then "HTTP/1.1".toList else "Status:".toList
  if a.fContentType.length = 0 || a.Is404 K then
    header ++ " 404 Not Found\r\nContent-Length: 0\r\nConnection: close\r\n\r\n".toList
  else
    let hdr := header ++ " 200 OK\r\nContent-Type: ".toList ++ a.fContentType ++
      "\r\nConnection: keep-alive\r\nContent-Length: ".toList ++
      formatLd (GetContentLength a) ++ "\r\n".toList
    let hdr := if a.fContentEncoding.length > 0 then
        hdr ++ ("Content-Encoding: ".toList ++ a.fContentEncoding ++ "\r\n".toList)
      else hdr
    hdr ++ "\r\n".toList

/-! ## CreateEngine and the constructor -/

/-- `strchr(s, c)`: the position of the first `c` in `s`, `none` (the null
pointer) when `c` does not occur. -/
def strchr : Str → Char → Option Nat
  | [], _ => none
  | d :: ds, c => if d = c then some 0 else (strchr ds c).map (fun pos => pos + 1)

/-- Modelled from the spec: the class loader `gROOT->LoadClass`, `TClass::New`
and the engine members `SetServer` and `Create` are not among the sources; an
engine is registered "by a short scheme name ... given as scheme:argument", and
a construction failure (unknown scheme, transport bind failure) is "reported to
the caller". `κ` is the type of the loaded classes; `LoadClass` and `New` may
fail (null pointer), `Create` returns its boolean and the engine as it left it. -/
structure EngineFactory (κ ε : Type) where
  LoadClass : Str → Option κ
  New : κ → Option ε
  SetServer : ε → ε
  Create : ε → Str → Bool × ε

/-- The class name `CreateEngine` loads for the text before the `':'`. -/
def engineClassName (clname : Str) : Str :=
  if clname.length = 0 || clname = "http".toList || clname = "civetweb".toList then
    "TCivetweb".toList
  else if clname = "fastcgi".toList then "TFastCgi".toList
  else if clname = "dabc".toList then "TDabcEngine".toList
  else clname

/-- `THttpServer::CreateEngine(engine)`: the boolean result and the server after
the call. -/
def CreateEngine {σ κ ε : Type} (F : EngineFactory κ ε) (srv : THttpServer σ ε)
    (engine : Option Str) : Bool × THttpServer σ ε :=
  match engine with
  | none => (false, srv)
  | some spec =>
    match strchr spec ':' with
    | none => (false, srv)
    | some pos =>
      let clname : Str := if pos ≠ 0 then spec.take pos else []
      match F.LoadClass (engineClassName clname) with
      | none => (false, srv)
      | some engine_class =>
        match F.New engine_class with
        | none => (false, srv)
        | some eng =>
          let r := F.Create (F.SetServer eng) (spec.drop (pos + 1))
          if !r.1 then (false, srv)
          else (true, { srv with fEngines := srv.fEngines ++ [r.2] })

/-- The constructor `THttpServer::THttpServer(engine)`, run by thread `self`:
`Getenv` is `gSystem->Getenv`, `dabc` tells whether `COMPILED_WITH_DABC` is
defined, `sniff` is the state of the new sniffer. The timer is left out. -/
def THttpServer.ctor {σ κ ε : Type} (F : EngineFactory κ ε) (dabc : Bool)
    (Getenv : Str → Option Str) (self : Nat) (sniff : σ) (engine : Option Str) :
    THttpServer σ ε :=
  let fRootSys : Str := (Getenv "ROOTSYS".toList).getD []
  let fHttpSys : Str :=
    if dabc then
      match Getenv "DABCSYS".toList with
      | some dabcsys => dabcsys ++ "/plugins/http".toList
      | none => []
    else if fRootSys.length > 0 then fRootSys ++ "/etc/http".toList
    else []
  let fHttpSys : Str := if fHttpSys.isEmpty then ".".toList else fHttpSys
  let fJSRootIOSys : Str :=
    match Getenv "JSROOTIOSYS".toList with
    | some jsrootiosys => jsrootiosys
    | none => fHttpSys ++ "/JSRootIO".toList
  (CreateEngine F
    { fEngines := [], fSniffer := sniff, fMainThrdId := self,
      fHttpSys := fHttpSys, fRootSys := fRootSys, fJSRootIOSys := fJSRootIOSys,
      fTopName := "ROOT".toList,
      fDefaultPage := fHttpSys ++ "/files/main.htm".toList,
      fDrawPage := fHttpSys ++ "/files/single.htm".toList,
      fCallArgs := [] }
    engine).2

/-! ## More of the small configuration -/

/-- A class loader that knows the two engine classes `TCivetweb` and `TFastCgi`
(classes 1 and 2); an engine is a port number, 0 before `Create`, and `Create`
takes the number of digits of a non-empty argument as the port. -/
def exampleFactory : EngineFactory Nat Nat :=
  { LoadClass := fun clname =>
      if clname = "TCivetweb".toList then some 1
      else if clname = "TFastCgi".toList then some 2
      else none,
    New := fun _ => some 0,
    SetServer := fun e => e,
    Create := fun e arg => if arg.isEmpty then (false, e) else (true, arg.length) }

/-- The content length of the examples: the length of the text body. -/
def exampleContentLength (a : THttpCallArg) : Int :=
  a.fContent.length

theorem ProcessRequest_trace_isSniffer {σ ε : Type} (K : ContentTags) (S : TRootSniffer σ)
    (srv : THttpServer σ ε) (arg : THttpCallArg) :
    ∀ e ∈ (ProcessRequest K S srv arg).trace, e.isSniffer = true := by
  unfold ProcessRequest
  dsimp only
  split_ifs <;> simp [Event.isSniffer]

theorem routedOf_append (t u : List Event) : routedOf (t ++ u) = routedOf t ++ routedOf u := by
  induction t with
  | nil => rfl
  | cons e t ih => cases e <;> simp [routedOf, ih]

theorem routedOf_of_isSniffer (t : List Event) (h : ∀ e ∈ t, e.isSniffer = true) :
    routedOf t = [] := by
  induction t with
  | nil => rfl
  | cons e t ih =>
    have he := h e (List.mem_cons_self e t)
    have ht := ih (fun x hx => h x (List.mem_cons_of_mem e hx))
    cases e <;> simp_all [routedOf, Event.isSniffer]

theorem processAt_fMainThrdId {σ ε : Type} (K : ContentTags) (S : TRootSniffer σ)
    (w : World σ ε) (p : Nat) : (processAt K S w p).1.srv.fMainThrdId = w.srv.fMainThrdId := rfl

theorem processAt_routedOf {σ ε : Type} (K : ContentTags) (S : TRootSniffer σ)
    (w : World σ ε) (p : Nat) : routedOf (processAt K S w p).2 = [p] := by
  unfold processAt
  simp only [routedOf_append]
  rw [routedOf_of_isSniffer _ (ProcessRequest_trace_isSniffer K S w.srv (w.mem p))]
  rfl

/-- C2. `ExecuteHttp` called by the main thread routes the request in place (the
request object holds what `ProcessRequest` makes of it, no other request object
changes), returns true, leaves `fCallArgs` as it was, and neither locks, adds
to the list nor waits. -/
theorem ExecuteHttp_main_thread_in_place {σ ε : Type} (K : ContentTags) (S : TRootSniffer σ)
    (w : World σ ε) (p : Nat) :
    (ExecuteHttp K S w w.srv.fMainThrdId p).2.2 = CallState.returned true ∧
    (ExecuteHttp K S w w.srv.fMainThrdId p).1.mem p = (ProcessRequest K S w.srv (w.mem p)).arg ∧
    (∀ q, q ≠ p → (ExecuteHttp K S w w.srv.fMainThrdId p).1.mem q = w.mem q) ∧
    routedOf (ExecuteHttp K S w w.srv.fMainThrdId p).2.1 = [p] ∧
    (ExecuteHttp K S w w.srv.fMainThrdId p).1.srv.fCallArgs = w.srv.fCallArgs ∧
    (∀ q, Event.add q ∉ (ExecuteHttp K S w w.srv.fMainThrdId p).2.1 ∧
          Event.wait q ∉ (ExecuteHttp K S w w.srv.fMainThrdId p).2.1) ∧
    Event.lock ∉ (ExecuteHttp K S w w.srv.fMainThrdId p).2.1 := by
  have hsn := ProcessRequest_trace_isSniffer K S w.srv (w.mem p)
  have key : ∀ e : Event, e.isSniffer = false → e ≠ Event.routed p →
      e ∉ (ExecuteHttp K S w w.srv.fMainThrdId p).2.1 := by
    intro e he hne hmem
    simp only [ExecuteHttp, if_true, processAt, List.mem_append, List.mem_singleton] at hmem
    rcases hmem with hmem | hmem
    · rw [hsn e hmem] at he
      exact Bool.noConfusion he
    · exact hne hmem
  refine ⟨by simp [ExecuteHttp], by simp [ExecuteHttp, processAt, setArg], ?_, ?_, ?_, ?_, ?_⟩
  · intro q hq
    simp [ExecuteHttp, processAt, setArg, hq]
  · simp only [ExecuteHttp, if_true]
    exact processAt_routedOf K S w p
  · simp [ExecuteHttp, processAt]
  · intro q
    exact ⟨key _ rfl (by simp), key _ rfl (by simp)⟩
  · exact key _ rfl (by simp)

/-- C5. `ProcessRequests` called by a thread other than the main thread reports
the error and returns: the world (queue, request objects, sniffer, engines) is
unchanged and the error report is the only call made, so nothing is routed or
signaled and no engine is ticked. -/
theorem ProcessRequests_other_thread {σ ε : Type} (K : ContentTags) (S : TRootSniffer σ)
    (E : THttpEngine ε) (w : World σ ε) (self : Nat) (h : w.srv.fMainThrdId ≠ self) :
    ProcessRequests K S E w self =
      (w, [Event.error "ProcessRequests".toList
             "Should be called only from main ROOT thread".toList]) := by
  unfold ProcessRequests
  rw [if_pos h]

/-- Witness of C5: thread 7 calls `ProcessRequests` on a server whose main
thread is 0 and whose queue holds two requests. -/
theorem ProcessRequests_other_thread_witness :
    ProcessRequests exampleTags exampleSniffer exampleEngine
        (submitAll exampleTags exampleSniffer exampleWorld [(1, 10), (2, 11)]).1 7 =
      ((submitAll exampleTags exampleSniffer exampleWorld [(1, 10), (2, 11)]).1,
       [Event.error "ProcessRequests".toList
          "Should be called only from main ROOT thread".toList]) :=
  ProcessRequests_other_thread exampleTags exampleSniffer exampleEngine
    (submitAll exampleTags exampleSniffer exampleWorld [(1, 10), (2, 11)]).1 7 (by decide)

/-! ## The router: claims -/

theorem IsFileRequested_h_json {σ ε : Type} (srv : THttpServer σ ε) (res : Str) :
    (IsFileRequested srv (some "h.json".toList) res).1 = false := by
  have h1 : rfind "h.json".toList "httpsys/".toList = none := by decide
  have h2 : rfind "h.json".toList "rootsys/".toList = none := by decide
  have h3 : rfind "h.json".toList "jsrootiosys/".toList = none := by decide
  simp only [IsFileRequested, h1, h2, h3]
  split_ifs <;> rfl

theorem IsFileRequested_h_xml {σ ε : Type} (srv : THttpServer σ ε) (res : Str) :
    (IsFileRequested srv (some "h.xml".toList) res).1 = false := by
  have h1 : rfind "h.xml".toList "httpsys/".toList = none := by decide
  have h2 : rfind "h.xml".toList "rootsys/".toList = none := by decide
  have h3 : rfind "h.xml".toList "jsrootiosys/".toList = none := by decide
  simp only [IsFileRequested, h1, h2, h3]
  split_ifs <;> rfl

/-- C6. For a request whose file name is empty or `"index.htm"`, the response
content is the draw page exactly when the sniffer reports the path as not
explorable and as drawable, and the default page otherwise; the response is
marked as a file, and neither `ScanHierarchy` nor `Produce` is called (the
sniffer state stays as it was). -/
theorem ProcessRequest_index_page {σ ε : Type} (K : ContentTags) (S : TRootSniffer σ)
    (srv : THttpServer σ ε) (arg : THttpCallArg)
    (h : arg.fFileName = [] ∨ arg.fFileName = "index.htm".toList) :
    (ProcessRequest K S srv arg).arg.fContent =
      (if S.CanExploreItem srv.fSniffer arg.fPathName = false ∧
          S.CanDrawItem srv.fSniffer arg.fPathName = true
       then srv.fDrawPage else srv.fDefaultPage) ∧
    (ProcessRequest K S srv arg).arg.fContentType = K.file ∧
    (∀ e ∈ (ProcessRequest K S srv arg).trace,
      (∀ t p k, e ≠ Event.scanHierarchy t p k) ∧ (∀ p f q, e ≠ Event.produce p f q)) ∧
    (ProcessRequest K S srv arg).sniffer = srv.fSniffer := by
  have hc : (arg.fFileName.isEmpty || decide (arg.fFileName = "index.htm".toList)) = true := by
    rcases h with h | h <;> simp [h]
  unfold ProcessRequest
  rw [if_pos hc]
  refine ⟨?_, rfl, ?_, rfl⟩
  · cases S.CanExploreItem srv.fSniffer arg.fPathName <;>
      cases S.CanDrawItem srv.fSniffer arg.fPathName <;>
      simp [THttpCallArg.SetFile, THttpCallArg.SetContentType]
  · cases S.CanExploreItem srv.fSniffer arg.fPathName <;> simp

/-- Witness of C6: the page of `"hist"`, which the example sniffer reports as
not explorable and drawable. -/
theorem ProcessRequest_index_page_witness :
    (ProcessRequest exampleTags exampleSniffer exampleServer
      (request "hist" "index.htm" "")).arg.fContent = "/opt/sys/files/single.htm".toList :=
  (ProcessRequest_index_page exampleTags exampleSniffer exampleServer
    (request "hist" "index.htm" "") (Or.inr rfl)).1

/-- C7. For a request whose file name is non-empty, is none of `"index.htm"`,
`"h.xml"`, `"h.json"` and is not resolved by `IsFileRequested`, when `Produce`
succeeds the request object is the one `Produce` left with its content type set
to `GetMimeType(file name)`; it is not marked as not found (the reserved
not-found value being no content type of that file name). -/
theorem ProcessRequest_produce_content_type {σ ε : Type} (K : ContentTags) (S : TRootSniffer σ)
    (srv : THttpServer σ ε) (arg : THttpCallArg)
    (h0 : arg.fFileName ≠ []) (h1 : arg.fFileName ≠ "index.htm".toList)
    (h2 : arg.fFileName ≠ "h.xml".toList) (h3 : arg.fFileName ≠ "h.json".toList)
    (h4 : (IsFileRequested srv (some arg.fFileName) arg.fFileName).1 = false)
    (h5 : (S.Produce srv.fSniffer arg.fPathName arg.fFileName arg.fQuery
             arg.fBinData arg.fBinDataLength).2.1 = true)
    (hK : GetMimeType arg.fFileName ≠ K.notFound) :
    (ProcessRequest K S srv arg).arg.fContentType = GetMimeType arg.fFileName ∧
    (ProcessRequest K S srv arg).arg =
      { arg with
        fBinData := (S.Produce srv.fSniffer arg.fPathName arg.fFileName arg.fQuery
                       arg.fBinData arg.fBinDataLength).2.2.1,
        fBinDataLength := (S.Produce srv.fSniffer arg.fPathName arg.fFileName arg.fQuery
                             arg.fBinData arg.fBinDataLength).2.2.2,
        fContentType := GetMimeType arg.fFileName } ∧
    (ProcessRequest K S srv arg).arg.Is404 K = false := by
  have hc : ¬ (arg.fFileName.isEmpty || decide (arg.fFileName = "index.htm".toList)) = true := by
    intro hh
    rcases (Bool.or_eq_true _ _).mp hh with hh | hh
    · exact h0 (List.isEmpty_iff.mp hh)
    · exact h1 (of_decide_eq_true hh)
  have hr : (ProcessRequest K S srv arg).arg =
      { arg with
        fBinData := (S.Produce srv.fSniffer arg.fPathName arg.fFileName arg.fQuery
                       arg.fBinData arg.fBinDataLength).2.2.1,
        fBinDataLength := (S.Produce srv.fSniffer arg.fPathName arg.fFileName arg.fQuery
                             arg.fBinData arg.fBinDataLength).2.2.2,
        fContentType := GetMimeType arg.fFileName } := by
    unfold ProcessRequest
    rw [if_neg hc]
    simp only [h4, Bool.false_eq_true, if_false, if_neg h2, if_neg h3, h5, if_true]
    rfl
  refine ⟨by rw [hr], hr, ?_⟩
  rw [hr]
  simp [THttpCallArg.Is404, hK]

/-- Witness of C7: `"get.bin"`, which the example sniffer produces. -/
theorem ProcessRequest_produce_content_type_witness :
    (ProcessRequest exampleTags exampleSniffer exampleServer
      (request "hist" "get.bin" "")).arg.fContentType = "application/x-binary".toList :=
  (ProcessRequest_produce_content_type exampleTags exampleSniffer exampleServer
    (request "hist" "get.bin" "") (by decide) (by decide) (by decide) (by decide)
    (by decide) (by decide) (by decide)).1

/-- C8. For a request with an empty text body (as the constructor leaves it)
whose file name is non-empty, is none of `"index.htm"`, `"h.xml"`, `"h.json"`
and is not resolved by `IsFileRequested`, when `Produce` declines the response
is marked as not found (`Set404`) and its text body is empty. -/
theorem ProcessRequest_not_found {σ ε : Type} (K : ContentTags) (S : TRootSniffer σ)
    (srv : THttpServer σ ε) (arg : THttpCallArg)
    (hfresh : arg.fContent = [])
    (h0 : arg.fFileName ≠ []) (h1 : arg.fFileName ≠ "index.htm".toList)
    (h2 : arg.fFileName ≠ "h.xml".toList) (h3 : arg.fFileName ≠ "h.json".toList)
    (h4 : (IsFileRequested srv (some arg.fFileName) arg.fFileName).1 = false)
    (h5 : (S.Produce srv.fSniffer arg.fPathName arg.fFileName arg.fQuery
             arg.fBinData arg.fBinDataLength).2.1 = false) :
    (ProcessRequest K S srv arg).arg.Is404 K = true ∧
    (ProcessRequest K S srv arg).arg =
      THttpCallArg.Set404 K
        { arg with
          fBinData := (S.Produce srv.fSniffer arg.fPathName arg.fFileName arg.fQuery
                         arg.fBinData arg.fBinDataLength).2.2.1,
          fBinDataLength := (S.Produce srv.fSniffer arg.fPathName arg.fFileName arg.fQuery
                               arg.fBinData arg.fBinDataLength).2.2.2 } ∧
    (ProcessRequest K S srv arg).arg.fContent = [] := by
  have hc : ¬ (arg.fFileName.isEmpty || decide (arg.fFileName = "index.htm".toList)) = true := by
    intro hh
    rcases (Bool.or_eq_true _ _).mp hh with hh | hh
    · exact h0 (List.isEmpty_iff.mp hh)
    · exact h1 (of_decide_eq_true hh)
  have hr : (ProcessRequest K S srv arg).arg =
      THttpCallArg.Set404 K
        { arg with
          fBinData := (S.Produce srv.fSniffer arg.fPathName arg.fFileName arg.fQuery
                         arg.fBinData arg.fBinDataLength).2.2.1,
          fBinDataLength := (S.Produce srv.fSniffer arg.fPathName arg.fFileName arg.fQuery
                               arg.fBinData arg.fBinDataLength).2.2.2 } := by
    unfold ProcessRequest
    rw [if_neg hc]
    simp only [h4, Bool.false_eq_true, if_false, if_neg h2, if_neg h3, h5]
  refine ⟨?_, hr, ?_⟩
  · rw [hr]
    simp [THttpCallArg.Is404, THttpCallArg.Set404, THttpCallArg.SetContentType]
  · rw [hr]
    simpa [THttpCallArg.Set404, THttpCallArg.SetContentType] using hfresh

/-- Witness of C8: `"get.png"`, which the example sniffer does not produce. -/
theorem ProcessRequest_not_found_witness :
    (ProcessRequest exampleTags exampleSniffer exampleServer
      (request "hist" "get.png" "")).arg.Is404 exampleTags = true ∧
    (ProcessRequest exampleTags exampleSniffer exampleServer
      (request "hist" "get.png" "")).arg.fContent = [] :=
  ⟨(ProcessRequest_not_found exampleTags exampleSniffer exampleServer
      (request "hist" "get.png" "") rfl (by decide) (by decide) (by decide) (by decide)
      (by decide) (by decide)).1,
   (ProcessRequest_not_found exampleTags exampleSniffer exampleServer
      (request "hist" "get.png" "") rfl (by decide) (by decide) (by decide) (by decide)
      (by decide) (by decide)).2.2⟩

/-- C9, counterexample. For a fresh `"h.json"` request over the two-node
hierarchy of the example sniffer the body holds both node names between the
braces, but its last character is the newline appended after the closing brace:
the body does not end with the closing brace. -/
theorem ProcessRequest_json_body_not_ending_with_brace :
    (ProcessRequest exampleTags exampleSniffer exampleServer
      (request "" "h.json" "")).arg.fContent
      = "\x7b\n\"ROOT\" : 1,\n\"hist\" : 2\n\x7d\n".toList ∧
    ¬ ((ProcessRequest exampleTags exampleSniffer exampleServer
      (request "" "h.json" "")).arg.fContent.getLast? = some '\x7d') := by
  decide

/-- C9, amended. For a request with file name `"h.json"` and an empty text body
(as the constructor leaves it), the body after `ProcessRequest` is an opening
brace and a newline, the text emitted by the hierarchy walk, then a newline, a
closing brace and a newline: it starts with the opening brace, ends with the
closing brace followed by one newline, contains the text of the walk, and the
response is marked as JSON. -/
theorem ProcessRequest_json_body {σ ε : Type} (K : ContentTags) (S : TRootSniffer σ)
    (srv : THttpServer σ ε) (arg : THttpCallArg)
    (h : arg.fFileName = "h.json".toList) (hfresh : arg.fContent = []) :
    (ProcessRequest K S srv arg).arg.fContent =
      "\x7b\n".toList ++
        S.ScanHierarchy srv.fSniffer (topname srv arg) arg.fPathName StoreKind.json ++
        "\n\x7d\n".toList ∧
    (ProcessRequest K S srv arg).arg.fContent.head? = some '\x7b' ∧
    "\x7d\n".toList <:+ (ProcessRequest K S srv arg).arg.fContent ∧
    S.ScanHierarchy srv.fSniffer (topname srv arg) arg.fPathName StoreKind.json
      <:+: (ProcessRequest K S srv arg).arg.fContent ∧
    (ProcessRequest K S srv arg).arg.fContentType = K.json := by
  have hc : ¬ (arg.fFileName.isEmpty || decide (arg.fFileName = "index.htm".toList)) = true := by
    rw [h]; decide
  have hx : ¬ arg.fFileName = "h.xml".toList := by
    rw [h]; decide
  have hf : (IsFileRequested srv (some arg.fFileName) arg.fFileName).1 = false := by
    rw [h]; exact IsFileRequested_h_json srv _
  have hr : (ProcessRequest K S srv arg).arg =
      THttpCallArg.SetJson K { arg with
        fContent := arg.fContent ++ "\x7b\n".toList ++
          S.ScanHierarchy srv.fSniffer (topname srv arg) arg.fPathName StoreKind.json ++
          "\n\x7d\n".toList } := by
    unfold ProcessRequest
    rw [if_neg hc]
    simp only [hf, Bool.false_eq_true, if_false, if_neg hx, if_pos h]
  have hb : (ProcessRequest K S srv arg).arg.fContent =
      "\x7b\n".toList ++
        S.ScanHierarchy srv.fSniffer (topname srv arg) arg.fPathName StoreKind.json ++
        "\n\x7d\n".toList := by
    rw [hr, hfresh]; rfl
  refine ⟨hb, ?_, ?_, ?_, ?_⟩
  · rw [hb]; rfl
  · rw [hb]
    exact ⟨"\x7b\n".toList ++
        S.ScanHierarchy srv.fSniffer (topname srv arg) arg.fPathName StoreKind.json ++
        "\n".toList, by simp⟩
  · rw [hb]
    exact ⟨"\x7b\n".toList, "\n\x7d\n".toList, rfl⟩
  · rw [hr]; rfl

/-- Witness of C9, amended: the fresh `"h.json"` request over the two-node
hierarchy of the example sniffer. -/
theorem ProcessRequest_json_body_witness :
    (ProcessRequest exampleTags exampleSniffer exampleServer
      (request "" "h.json" "")).arg.fContent.head? = some '\x7b' ∧
    "\x7d\n".toList <:+ (ProcessRequest exampleTags exampleSniffer exampleServer
      (request "" "h.json" "")).arg.fContent :=
  ⟨(ProcessRequest_json_body exampleTags exampleSniffer exampleServer
      (request "" "h.json" "") rfl rfl).2.1,
   (ProcessRequest_json_body exampleTags exampleSniffer exampleServer
      (request "" "h.json" "") rfl rfl).2.2.1⟩

/-- C10, counterexample. For an `"h.xml"` request on path `"sub"` with top-name
override `"TOPX"`, and a walk that emits nothing, the body is the envelope
alone: its root element carries the version and the path `"sub"`, and the
effective top name `"TOPX"` occurs nowhere in it. -/
theorem ProcessRequest_xml_root_without_topname :
    topname exampleServer (request "sub" "h.xml" "TOPX") = "TOPX".toList ∧
    (ProcessRequest exampleTags silentSniffer exampleServer
      (request "sub" "h.xml" "TOPX")).arg.fContent
      = ("<?xml version=\"1.0\" encoding=\"UTF-8\"?>\n" ++
         "<dabc version=\"2\" xmlns:dabc=\"http://dabc.gsi.de/xhtml\" path=\"sub\">\n" ++
         "</dabc>\n").toList ∧
    ¬ ("TOPX".toList <:+: (ProcessRequest exampleTags silentSniffer exampleServer
      (request "sub" "h.xml" "TOPX")).arg.fContent) := by
  refine ⟨rfl, rfl, ?_⟩
  set_option maxRecDepth 20000 in decide

/-- C10, amended. For a request with file name `"h.xml"`, `ProcessRequest`
replaces the text body by the output of the hierarchy walk inside a fixed XML
envelope: the XML declaration, the root element `dabc` tagged with the protocol
version `2` and with the path of the request (not with a top-level name), the
output of the walk, and the closing tag; the response is marked as XML. The
effective top-level name (the override of the request if it is non-empty, else
the top name of the server) is the name the walk is called with. -/
theorem ProcessRequest_xml_envelope {σ ε : Type} (K : ContentTags) (S : TRootSniffer σ)
    (srv : THttpServer σ ε) (arg : THttpCallArg) (h : arg.fFileName = "h.xml".toList) :
    (ProcessRequest K S srv arg).arg.fContent =
      "<?xml version=\"1.0\" encoding=\"UTF-8\"?>\n".toList ++
      "<dabc version=\"2\" xmlns:dabc=\"http://dabc.gsi.de/xhtml\" path=\"".toList ++
      arg.fPathName ++ "\">\n".toList ++
      S.ScanHierarchy srv.fSniffer
        (if arg.fTopName ≠ [] then arg.fTopName else srv.fTopName) arg.fPathName StoreKind.xml ++
      "</dabc>\n".toList ∧
    (ProcessRequest K S srv arg).arg.fContentType = K.xml ∧
    (ProcessRequest K S srv arg).trace =
      [Event.scanHierarchy (if arg.fTopName ≠ [] then arg.fTopName else srv.fTopName)
         arg.fPathName StoreKind.xml] := by
  have hc : ¬ (arg.fFileName.isEmpty || decide (arg.fFileName = "index.htm".toList)) = true := by
    rw [h]; decide
  have hf : (IsFileRequested srv (some arg.fFileName) arg.fFileName).1 = false := by
    rw [h]; exact IsFileRequested_h_xml srv _
  have ht : topname srv arg = if arg.fTopName ≠ [] then arg.fTopName else srv.fTopName := by
    unfold topname
    cases arg.fTopName <;> simp
  have hr : ProcessRequest K S srv arg =
      { arg := THttpCallArg.SetXml K { arg with
          fContent := xmlHeader arg.fPathName ++
            S.ScanHierarchy srv.fSniffer (topname srv arg) arg.fPathName StoreKind.xml ++
            "</dabc>\n".toList },
        sniffer := srv.fSniffer,
        trace := [Event.scanHierarchy (topname srv arg) arg.fPathName StoreKind.xml] } := by
    unfold ProcessRequest
    rw [if_neg hc]
    simp only [hf, Bool.false_eq_true, if_false, if_pos h]
  rw [hr, ← ht]
  exact ⟨rfl, rfl, rfl⟩

/-- Witness of C10, amended: an `"h.xml"` request on path `"sub"` with the
top-name override `"TOPX"`, over the two-node hierarchy of the example sniffer. -/
theorem ProcessRequest_xml_envelope_witness :
    (ProcessRequest exampleTags exampleSniffer exampleServer
      (request "sub" "h.xml" "TOPX")).arg.fContent
      = ("<?xml version=\"1.0\" encoding=\"UTF-8\"?>\n" ++
         "<dabc version=\"2\" xmlns:dabc=\"http://dabc.gsi.de/xhtml\" path=\"sub\">\n" ++
         "<item _name=\"TOPX\"/>\n<item _name=\"hist\"/>" ++
         "</dabc>\n").toList :=
  (ProcessRequest_xml_envelope exampleTags exampleSniffer exampleServer
    (request "sub" "h.xml" "TOPX") rfl).1

/-! ## The virtual paths: claims -/

theorem rfind_eq_none_iff (s pat : Str) : rfind s pat = none ↔ ¬ pat <:+: s := by
  induction s with
  | nil =>
    by_cases hp : pat = []
    · simp [rfind, hp]
    · simp [rfind, hp]
  | cons c cs ih =>
    rw [List.infix_cons_iff, rfind]
    cases hr : rfind cs pat with
    | some pos =>
      have h1 : pat <:+: cs := by
        by_contra hc
        rw [ih.mpr hc] at hr
        exact Option.noConfusion hr
      simp [h1]
    | none =>
      have h1 : ¬ pat <:+: cs := ih.mp hr
      by_cases hp : pat <+: c :: cs
      · simp [hp]
      · simp [hp, h1]

theorem rfind_last (pre tok post : Str) (hlast : ¬ tok <:+: (tok ++ post).tail) :
    rfind (pre ++ tok ++ post) tok = some pre.length := by
  induction pre with
  | nil =>
    cases tok with
    | nil => exact absurd List.nil_infix hlast
    | cons c cs =>
      have hn : rfind (cs ++ post) (c :: cs) = none := (rfind_eq_none_iff _ _).mpr hlast
      have hp : (c :: cs) <+: c :: (cs ++ post) := ⟨post, rfl⟩
      show rfind (c :: (cs ++ post)) (c :: cs) = some 0
      rw [rfind, hn]
      exact if_pos (List.isPrefixOf_iff_prefix.mpr hp)
  | cons a pre ih =>
    show rfind (a :: (pre ++ tok ++ post)) tok = some (pre.length + 1)
    rw [rfind, ih]

theorem rfind_some_decompose (s pat : Str) (pos : Nat) (hpat : pat ≠ [])
    (h : rfind s pat = some pos) :
    ∃ pre post, s = pre ++ pat ++ post ∧ pre.length = pos ∧ ¬ pat <:+: (pat ++ post).tail := by
  induction s generalizing pos with
  | nil => simp [rfind, hpat] at h
  | cons c cs ih =>
    rw [rfind] at h
    cases hr : rfind cs pat with
    | some q =>
      rw [hr] at h
      obtain ⟨pre, post, h1, h2, h3⟩ := ih q hr
      refine ⟨c :: pre, post, by rw [h1]; rfl, ?_, h3⟩
      simp only [Option.some.injEq] at h
      simp [h2, h]
    | none =>
      rw [hr] at h
      by_cases hp : pat.isPrefixOf (c :: cs) = true
      · simp only [hp, if_true, Option.some.injEq] at h
        obtain ⟨post, hpost⟩ := List.isPrefixOf_iff_prefix.mp hp
        refine ⟨[], post, by simpa using hpost.symm, h, ?_⟩
        have ht : (pat ++ post).tail = cs := by rw [hpost]; rfl
        rw [ht]
        exact (rfind_eq_none_iff _ _).mp hr
      · simp [hp] at h

/-- C11. For a uri that contains `"httpsys/"`, `IsFileRequested` returns true,
and for the last occurrence of the token in the uri (one exists; it is the one
with no further occurrence starting after its first character) the result is
the system root, then `"/"`, then the text after that occurrence; whatever the
system root is. -/
theorem IsFileRequested_httpsys_last {σ ε : Type} (srv : THttpServer σ ε) (uri res : Str)
    (h : "httpsys/".toList <:+: uri) :
    (IsFileRequested srv (some uri) res).1 = true ∧
    (∃ pre post, uri = pre ++ "httpsys/".toList ++ post ∧
      ¬ "httpsys/".toList <:+: ("httpsys/".toList ++ post).tail) ∧
    (∀ pre post, uri = pre ++ "httpsys/".toList ++ post →
      ¬ "httpsys/".toList <:+: ("httpsys/".toList ++ post).tail →
      (IsFileRequested srv (some uri) res).2 = srv.fHttpSys ++ "/".toList ++ post) := by
  have hlen : ¬ uri.length = 0 := by
    intro h0
    have := List.IsInfix.length_le h
    rw [h0] at this
    exact absurd this (by decide)
  have hne : rfind uri "httpsys/".toList ≠ none := fun hc => (rfind_eq_none_iff _ _).mp hc h
  obtain ⟨pos, hpos⟩ := Option.ne_none_iff_exists'.mp hne
  refine ⟨?_, ?_, ?_⟩
  · simp only [IsFileRequested, if_neg hlen, hpos]
  · obtain ⟨pre, post, h1, _, h3⟩ := rfind_some_decompose uri _ pos (by decide) hpos
    exact ⟨pre, post, h1, h3⟩
  · intro pre post huri hlast
    have hr := rfind_last pre "httpsys/".toList post hlast
    rw [← huri] at hr
    simp only [IsFileRequested, if_neg hlen, hr]
    rw [huri, List.append_assoc, List.append_assoc]
    have hd : List.drop (pre.length + 7) (pre ++ ("httpsys/".toList ++ post)) = '/' :: post := by
      rw [← List.drop_drop, List.drop_left]
      rfl
    rw [hd]
    rfl

/-- Witness of C11: system root `/opt/sys`, and a uri holding the token twice. -/
theorem IsFileRequested_httpsys_last_witness :
    (IsFileRequested exampleServer (some "x/httpsys/y/httpsys/css/a.css".toList) []).1 = true ∧
    (IsFileRequested exampleServer (some "x/httpsys/y/httpsys/css/a.css".toList) []).2
      = "/opt/sys/css/a.css".toList :=
  ⟨(IsFileRequested_httpsys_last exampleServer "x/httpsys/y/httpsys/css/a.css".toList []
      ⟨"x/".toList, "y/httpsys/css/a.css".toList, rfl⟩).1,
   (IsFileRequested_httpsys_last exampleServer "x/httpsys/y/httpsys/css/a.css".toList []
      ⟨"x/".toList, "y/httpsys/css/a.css".toList, rfl⟩).2.2
      "x/httpsys/y/".toList "css/a.css".toList rfl (by decide)⟩

theorem CreateEngine_cases {σ κ ε : Type} (F : EngineFactory κ ε) (srv : THttpServer σ ε)
    (engine : Option Str) :
    ((CreateEngine F srv engine).1 = false ∧ (CreateEngine F srv engine).2 = srv) ∨
    ((CreateEngine F srv engine).1 = true ∧
      ∃ eng, (CreateEngine F srv engine).2 = { srv with fEngines := srv.fEngines ++ [eng] }) := by
  unfold CreateEngine
  split
  · exact Or.inl ⟨rfl, rfl⟩
  · split
    · exact Or.inl ⟨rfl, rfl⟩
    · dsimp only
      split
      · exact Or.inl ⟨rfl, rfl⟩
      · split
        · exact Or.inl ⟨rfl, rfl⟩
        · split
          · exact Or.inl ⟨rfl, rfl⟩
          · exact Or.inr ⟨rfl, _, rfl⟩

theorem GetMimeTypeLoop_no_suffix (path : Str) (tbl : List (Str × Nat × Str))
    (h : ∀ e ∈ tbl, ¬ e.1 <:+ path) : GetMimeTypeLoop path tbl = "text/plain".toList := by
  induction tbl with
  | nil => rfl
  | cons e rest ih =>
    obtain ⟨extension, ext_len, mime_type⟩ := e
    have hrest := ih (fun x hx => h x (List.mem_cons_of_mem _ hx))
    have hne : ¬ path.drop (path.length - ext_len) = extension := by
      intro hc
      apply h _ (List.mem_cons_self _ _)
      show extension <:+ path
      rw [← hc]
      exact List.drop_suffix _ _
    simp only [GetMimeTypeLoop, if_neg hne, hrest, ite_self]

theorem GetMimeTypeLoop_entry (tbl : List (Str × Nat × Str))
    (hlen : ∀ e ∈ tbl, e.2.1 = e.1.length)
    (hpw : ∀ a ∈ tbl, ∀ b ∈ tbl, a.1 <:+ b.1 → a = b)
    (entry : Str × Nat × Str) (hmem : entry ∈ tbl) (s : Str) (hs : s ≠ []) :
    GetMimeTypeLoop (s ++ entry.1) tbl = entry.2.2 := by
  induction tbl with
  | nil => exact absurd hmem (List.not_mem_nil _)
  | cons e rest ih =>
    have hspos : 0 < s.length := List.length_pos.mpr hs
    by_cases he : e = entry
    · subst he
      obtain ⟨extension, ext_len, mime_type⟩ := e
      have hl : ext_len = extension.length := hlen _ (List.mem_cons_self _ _)
      subst hl
      have h1 : ¬ (s ++ extension).length ≤ extension.length := by
        rw [List.length_append]; omega
      have h2 : (s ++ extension).drop ((s ++ extension).length - extension.length)
          = extension := by
        rw [List.length_append, Nat.add_sub_cancel]
        exact List.drop_left _ _
      simp only [GetMimeTypeLoop, if_neg h1, if_pos h2]
    · have hin : entry ∈ rest := by
        rcases List.mem_cons.mp hmem with h | h
        · exact absurd h.symm he
        · exact h
      have hrest := ih (fun x hx => hlen x (List.mem_cons_of_mem _ hx))
        (fun a ha b hb => hpw a (List.mem_cons_of_mem _ ha) b (List.mem_cons_of_mem _ hb)) hin
      obtain ⟨extension, ext_len, mime_type⟩ := e
      have hne : ¬ (s ++ entry.1).drop ((s ++ entry.1).length - ext_len) = extension := by
        intro hc
        have h1 : extension <:+ s ++ entry.1 := by
          rw [← hc]
          exact List.drop_suffix _ _
        have h2 : entry.1 <:+ s ++ entry.1 := List.suffix_append _ _
        rcases List.suffix_or_suffix_of_suffix h1 h2 with h | h
        · exact he (hpw _ (List.mem_cons_self _ _) _ hmem h)
        · exact he (hpw _ hmem _ (List.mem_cons_self _ _) h).symm
      simp only [GetMimeTypeLoop, if_neg hne, hrest, ite_self]

theorem builtin_mime_types_ext_len : ∀ e ∈ builtin_mime_types, e.2.1 = e.1.length := by
  decide

set_option maxRecDepth 100000 in
theorem builtin_mime_types_suffix_free :
    ∀ a ∈ builtin_mime_types, ∀ b ∈ builtin_mime_types, a.1 <:+ b.1 → a = b := by
  decide

/-- C13. For every entry of the built-in table and every non-empty stem,
`GetMimeType` of the stem followed by the extension of the entry is the type of
the entry. No entry shadows another: of the extensions of the table at most one
is a suffix of a given file name, so the first match of the scan is also the
longest one. -/
theorem GetMimeType_stem_extension (entry : Str × Nat × Str)
    (hmem : entry ∈ builtin_mime_types) (s : Str) (hs : s ≠ []) :
    GetMimeType (s ++ entry.1) = entry.2.2 ∧
    ∀ path : Str, ∀ a ∈ builtin_mime_types, ∀ b ∈ builtin_mime_types,
      a.1 <:+ path → b.1 <:+ path → a = b := by
  refine ⟨GetMimeTypeLoop_entry builtin_mime_types builtin_mime_types_ext_len
    builtin_mime_types_suffix_free entry hmem s hs, ?_⟩
  intro path a ha b hb h1 h2
  rcases List.suffix_or_suffix_of_suffix h1 h2 with h | h
  · exact builtin_mime_types_suffix_free a ha b hb h
  · exact (builtin_mime_types_suffix_free b hb a ha h).symm

/-- Witness of C13: `"report.pdf"` is the stem `"report"` followed by `".pdf"`. -/
theorem GetMimeType_stem_extension_witness :
    GetMimeType "report.pdf".toList = "application/pdf".toList :=
  (GetMimeType_stem_extension (".pdf".toList, 4, "application/pdf".toList) (by decide)
    "report".toList (by decide)).1

/-- C14. A file name that ends with no extension of the built-in table (the
comparison is by characters, so case matters) gets the default `"text/plain"`. -/
theorem GetMimeType_default (path : Str)
    (h : ∀ e ∈ builtin_mime_types, ¬ e.1 <:+ path) :
    GetMimeType path = "text/plain".toList :=
  GetMimeTypeLoop_no_suffix path builtin_mime_types h

/-- Witness of C14: `"report.PDF"` and `"noext"`. -/
theorem GetMimeType_default_witness :
    GetMimeType "report.PDF".toList = "text/plain".toList ∧
    GetMimeType "noext".toList = "text/plain".toList :=
  ⟨GetMimeType_default "report.PDF".toList (by decide),
   GetMimeType_default "noext".toList (by decide)⟩

/-! ## SetPathAndFileName: claims -/

theorem strrchr_eq_none_iff (s : Str) (c : Char) : strrchr s c = none ↔ c ∉ s := by
  induction s with
  | nil => simp [strrchr]
  | cons d ds ih =>
    rw [strrchr]
    cases hr : strrchr ds c with
    | some pos =>
      have h1 : c ∈ ds := by
        by_contra hc
        rw [ih.mpr hc] at hr
        exact Option.noConfusion hr
      simp [h1]
    | none =>
      have h1 : c ∉ ds := ih.mp hr
      by_cases hd : d = c
      · simp [hd]
      · have hd2 : ¬ c = d := fun h => hd h.symm
        simp [hd, hd2, h1]

theorem strrchr_some (s : Str) (c : Char) (r : Nat) (h : strrchr s c = some r) :
    s = s.take r ++ c :: s.drop (r + 1) ∧ c ∉ s.drop (r + 1) := by
  induction s generalizing r with
  | nil => simp [strrchr] at h
  | cons d ds ih =>
    rw [strrchr] at h
    cases hr : strrchr ds c with
    | some pos =>
      rw [hr] at h
      simp only [Option.some.injEq] at h
      subst h
      obtain ⟨h1, h2⟩ := ih pos hr
      refine ⟨?_, by simpa using h2⟩
      simp only [List.take_succ_cons, List.drop_succ_cons, List.cons_append]
      rw [← h1]
    | none =>
      rw [hr] at h
      by_cases hd : d = c
      · simp only [hd, if_true, Option.some.injEq] at h
        subst h
        subst hd
        exact ⟨by simp, by simpa using (strrchr_eq_none_iff ds d).mp hr⟩
      · simp [hd] at h

theorem skipSlashes_decompose (l : Str) : ∃ k, l = List.replicate k '/' ++ skipSlashes l := by
  induction l with
  | nil => exact ⟨0, rfl⟩
  | cons c cs ih =>
    by_cases hc : c = '/'
    · obtain ⟨k, hk⟩ := ih
      refine ⟨k + 1, ?_⟩
      subst hc
      simp only [skipSlashes, if_true, List.replicate_succ, List.cons_append]
      rw [← hk]
    · exact ⟨0, by simp [skipSlashes, hc]⟩

theorem skipSlashes_head (l : Str) : (skipSlashes l).head? ≠ some '/' := by
  induction l with
  | nil => simp [skipSlashes]
  | cons c cs ih =>
    by_cases hc : c = '/'
    · simpa [skipSlashes, hc] using ih
    · simp [skipSlashes, hc]

theorem skipSlashes_all_slashes (l : Str) (h : ∀ c ∈ l, c = '/') : skipSlashes l = [] := by
  induction l with
  | nil => rfl
  | cons c cs ih =>
    have hc : c = '/' := h c (List.mem_cons_self _ _)
    simp only [skipSlashes, hc, if_true]
    exact ih (fun x hx => h x (List.mem_cons_of_mem _ hx))

theorem SetPathAndFileName_of_rslash (a : THttpCallArg) (s : Str) (r : Nat)
    (h : strrchr s '/' = some r) :
    (a.SetPathAndFileName (some s)).fPathName = skipSlashes (s.take r) ∧
    (a.SetPathAndFileName (some s)).fFileName = s.drop (r + 1) := by
  have hne : ¬ skipSlashes (s.take r) = "/".toList := by
    intro hc
    apply skipSlashes_head (s.take r)
    rw [hc]
    rfl
  simp only [THttpCallArg.SetPathAndFileName, h, List.nil_append, if_neg hne, and_self]

/-- C15. For a raw path that contains a `'/'`, the raw path is a run of `'/'`
(maybe empty), then the computed path, then `"/"`, then the computed file name. -/
theorem SetPathAndFileName_rejoin (a : THttpCallArg) (P : Str) (h : '/' ∈ P) :
    ∃ k, P = List.replicate k '/' ++ (a.SetPathAndFileName (some P)).fPathName ++
      "/".toList ++ (a.SetPathAndFileName (some P)).fFileName := by
  have hne : strrchr P '/' ≠ none := fun hc => (strrchr_eq_none_iff P '/').mp hc h
  obtain ⟨r, hr⟩ := Option.ne_none_iff_exists'.mp hne
  obtain ⟨hp, hf⟩ := SetPathAndFileName_of_rslash a P r hr
  obtain ⟨h1, _⟩ := strrchr_some P '/' r hr
  obtain ⟨k, hk⟩ := skipSlashes_decompose (P.take r)
  refine ⟨k, ?_⟩
  rw [hp, hf, ← hk]
  simpa using h1

/-- Witness of C15: `"//folder/sub/get.bin"` , whose path is `"folder/sub"` and
whose file name is `"get.bin"`. -/
theorem SetPathAndFileName_rejoin_witness :
    ∃ k, "//folder/sub/get.bin".toList = List.replicate k '/' ++
      (THttpCallArg.ctor.SetPathAndFileName (some "//folder/sub/get.bin".toList)).fPathName ++
      "/".toList ++
      (THttpCallArg.ctor.SetPathAndFileName (some "//folder/sub/get.bin".toList)).fFileName :=
  SetPathAndFileName_rejoin THttpCallArg.ctor "//folder/sub/get.bin".toList (by decide)

/-- C16. For a raw path without `'/'` the path is empty and the file name is
the raw path, whatever the request held before. -/
theorem SetPathAndFileName_no_slash (a : THttpCallArg) (P : Str) (h : '/' ∉ P) :
    (a.SetPathAndFileName (some P)).fPathName = [] ∧
    (a.SetPathAndFileName (some P)).fFileName = P := by
  have hr : strrchr P '/' = none := (strrchr_eq_none_iff P '/').mpr h
  simp only [THttpCallArg.SetPathAndFileName, hr, and_self]

/-- Witness of C16: `"get.bin"` given to a request that held a path and a file
name. -/
theorem SetPathAndFileName_no_slash_witness :
    ((request "old/path" "old.htm" "").SetPathAndFileName (some "get.bin".toList)).fPathName
      = [] ∧
    ((request "old/path" "old.htm" "").SetPathAndFileName (some "get.bin".toList)).fFileName
      = "get.bin".toList :=
  SetPathAndFileName_no_slash (request "old/path" "old.htm" "") "get.bin".toList (by decide)

/-- C17. For a non-empty raw path made of `'/'` only, `"/"` among them, the
path and the file name are both empty. -/
theorem SetPathAndFileName_only_slashes (a : THttpCallArg) (P : Str) (hne : P ≠ [])
    (h : ∀ c ∈ P, c = '/') :
    (a.SetPathAndFileName (some P)).fPathName = [] ∧
    (a.SetPathAndFileName (some P)).fFileName = [] := by
  have hmem : '/' ∈ P := by
    cases P with
    | nil => exact absurd rfl hne
    | cons c cs =>
      rw [← h c (List.mem_cons_self _ _)]
      exact List.mem_cons_self _ _
  have hn : strrchr P '/' ≠ none := fun hc => (strrchr_eq_none_iff P '/').mp hc hmem
  obtain ⟨r, hr⟩ := Option.ne_none_iff_exists'.mp hn
  obtain ⟨hp, hf⟩ := SetPathAndFileName_of_rslash a P r hr
  obtain ⟨_, h2⟩ := strrchr_some P '/' r hr
  rw [hp, hf]
  refine ⟨skipSlashes_all_slashes _ (fun c hc => h c (List.mem_of_mem_take hc)), ?_⟩
  cases hd : P.drop (r + 1) with
  | nil => rfl
  | cons c cs =>
    exfalso
    apply h2
    rw [hd]
    have hc : c ∈ P := List.mem_of_mem_drop (by rw [hd]; exact List.mem_cons_self _ _)
    rw [← h c hc]
    exact List.mem_cons_self _ _

/-- Witness of C17: `"/"` and `"///"`. -/
theorem SetPathAndFileName_only_slashes_witness :
    ((THttpCallArg.ctor.SetPathAndFileName (some "/".toList)).fPathName = [] ∧
     (THttpCallArg.ctor.SetPathAndFileName (some "/".toList)).fFileName = []) ∧
    ((THttpCallArg.ctor.SetPathAndFileName (some "///".toList)).fPathName = [] ∧
     (THttpCallArg.ctor.SetPathAndFileName (some "///".toList)).fFileName = []) :=
  ⟨SetPathAndFileName_only_slashes THttpCallArg.ctor "/".toList (by decide) (by decide),
   SetPathAndFileName_only_slashes THttpCallArg.ctor "///".toList (by decide) (by decide)⟩

/-- C18. Whatever the raw path (null included), the computed path does not
begin with `'/'`, so it is never `"/"`: the leading run of `'/'` is stripped
and the root is the empty path. -/
theorem SetPathAndFileName_path_no_leading_slash (a : THttpCallArg) (P : Option Str) :
    (a.SetPathAndFileName P).fPathName.head? ≠ some '/' ∧
    (a.SetPathAndFileName P).fPathName ≠ "/".toList := by
  have key : (a.SetPathAndFileName P).fPathName.head? ≠ some '/' := by
    cases P with
    | none => simp [THttpCallArg.SetPathAndFileName]
    | some s =>
      cases hr : strrchr s '/' with
      | none => simp [THttpCallArg.SetPathAndFileName, hr]
      | some r =>
        rw [(SetPathAndFileName_of_rslash a s r hr).1]
        exact skipSlashes_head _
  refine ⟨key, ?_⟩
  intro hc
  apply key
  rw [hc]
  rfl

/-! ## FillHttpHeader and CreateEngine: claims -/

/-- C19. With `P` being `"HTTP/1.1"` when `normal` and `"Status:"` otherwise,
`FillHttpHeader` gives exactly the 404 header with `Content-Length: 0` and
`Connection: close` when the content type is empty or the request is marked as
not found; otherwise `P`, `" 200 OK"`, the `Content-Type` line, the line
`Connection: keep-alive`, the `Content-Length` line, a `Content-Encoding` line
if and only if the content encoding is non-empty, and an empty line. -/
theorem FillHttpHeader_format (K : ContentTags) (GetContentLength : THttpCallArg → Int)
    (a : THttpCallArg) (normal : Bool) :
    a.FillHttpHeader K GetContentLength normal =
      if a.fContentType = [] ∨ a.Is404 K = true then
        (if normal = true then "HTTP/1.1".toList else "Status:".toList) ++
          " 404 Not Found\r\nContent-Length: 0\r\nConnection: close\r\n\r\n".toList
      else
        (if normal = true then "HTTP/1.1".toList else "Status:".toList) ++
          " 200 OK\r\n".toList ++
          ("Content-Type: ".toList ++ a.fContentType ++ "\r\n".toList) ++
          "Connection: keep-alive\r\n".toList ++
          ("Content-Length: ".toList ++ formatLd (GetContentLength a) ++ "\r\n".toList) ++
          (if a.fContentEncoding ≠ [] then
             "Content-Encoding: ".toList ++ a.fContentEncoding ++ "\r\n".toList
           else []) ++
          "\r\n".toList := by
  unfold THttpCallArg.FillHttpHeader
  by_cases h1 : a.fContentType = []
  · simp [h1]
  · by_cases h2 : a.Is404 K = true
    · simp [h2]
    · have h2f : a.Is404 K = false := by simpa using h2
      by_cases h3 : a.fContentEncoding = []
      · simp [h1, h2f, h3]
      · have h3p : 0 < a.fContentEncoding.length := List.length_pos.mpr h3
        simp [h1, h2f, h3, h3p]

theorem CreateEngine_true_iff {σ κ ε : Type} (F : EngineFactory κ ε) (srv : THttpServer σ ε)
    (engine : Option Str) :
    (CreateEngine F srv engine).1 = true ↔
      ∃ spec pos engine_class eng, engine = some spec ∧ strchr spec ':' = some pos ∧
        F.LoadClass (engineClassName (if pos ≠ 0 then spec.take pos else [])) = some engine_class ∧
        F.New engine_class = some eng ∧
        (F.Create (F.SetServer eng) (spec.drop (pos + 1))).1 = true := by
  cases engine with
  | none => simp [CreateEngine]
  | some spec =>
    cases h1 : strchr spec ':' with
    | none => simp [CreateEngine, h1]
    | some pos =>
      have hfalse : (CreateEngine F srv (some spec)).1 = false →
          ¬ (∃ engine_class eng,
              F.LoadClass (engineClassName (if pos ≠ 0 then spec.take pos else []))
                = some engine_class ∧
              F.New engine_class = some eng ∧
              (F.Create (F.SetServer eng) (spec.drop (pos + 1))).1 = true) →
          ((CreateEngine F srv (some spec)).1 = true ↔
            ∃ spec1 pos1 engine_class eng, some spec = some spec1 ∧
              strchr spec1 ':' = some pos1 ∧
              F.LoadClass (engineClassName (if pos1 ≠ 0 then spec1.take pos1 else []))
                = some engine_class ∧
              F.New engine_class = some eng ∧
              (F.Create (F.SetServer eng) (spec1.drop (pos1 + 1))).1 = true) := by
        intro hv hn
        rw [hv]
        constructor
        · intro h
          exact Bool.noConfusion h
        · rintro ⟨spec1, pos1, engine_class, eng, he, hs, hl, hnew, hc⟩
          cases he
          rw [h1] at hs
          cases hs
          exact absurd ⟨engine_class, eng, hl, hnew, hc⟩ hn
      cases h2 : F.LoadClass (engineClassName (if pos ≠ 0 then spec.take pos else [])) with
      | none =>
        apply hfalse
        · simp only [CreateEngine, h1, h2]
        · rintro ⟨engine_class, eng, hl, _, _⟩
          rw [h2] at hl
          exact Option.noConfusion hl
      | some engine_class =>
        cases h3 : F.New engine_class with
        | none =>
          apply hfalse
          · simp only [CreateEngine, h1, h2, h3]
          · rintro ⟨engine_class1, eng, hl, hnew, _⟩
            rw [h2] at hl
            cases hl
            rw [h3] at hnew
            exact Option.noConfusion hnew
        | some eng =>
          cases h4 : (F.Create (F.SetServer eng) (spec.drop (pos + 1))).1 with
          | false =>
            apply hfalse
            · simp only [CreateEngine, h1, h2, h3, h4, Bool.not_false, if_true]
            · rintro ⟨engine_class1, eng1, hl, hnew, hc⟩
              rw [h2] at hl
              cases hl
              rw [h3] at hnew
              cases hnew
              rw [h4] at hc
              exact Bool.noConfusion hc
          | true =>
            have hv : (CreateEngine F srv (some spec)).1 = true := by
              simp only [CreateEngine, h1, h2, h3, h4, Bool.not_true, Bool.false_eq_true,
                if_false]
            rw [hv]
            exact ⟨fun _ => ⟨spec, pos, engine_class, eng, rfl, h1, h2, h3, h4⟩, fun _ => rfl⟩

/-- C20. `CreateEngine` returns true if and only if one new engine was added
at the end of the engine registry; when it returns false the server, and so the
registry with the engines registered before, is unchanged. It returns true
exactly when the specification is not null, holds a `':'`, the class is found,
the instantiation gives an engine and `Create` succeeds; so it returns false on
a null specification, without `':'`, for a class not found, for a failed
instantiation and for a failed `Create`. -/
theorem CreateEngine_registry {σ κ ε : Type} (F : EngineFactory κ ε) (srv : THttpServer σ ε)
    (engine : Option Str) :
    ((CreateEngine F srv engine).1 = true ↔
      ∃ eng, (CreateEngine F srv engine).2.fEngines = srv.fEngines ++ [eng]) ∧
    ((CreateEngine F srv engine).1 = false → (CreateEngine F srv engine).2 = srv) ∧
    ((CreateEngine F srv engine).1 = true ↔
      ∃ spec pos engine_class eng, engine = some spec ∧ strchr spec ':' = some pos ∧
        F.LoadClass (engineClassName (if pos ≠ 0 then spec.take pos else [])) = some engine_class ∧
        F.New engine_class = some eng ∧
        (F.Create (F.SetServer eng) (spec.drop (pos + 1))).1 = true) := by
  refine ⟨?_, ?_, CreateEngine_true_iff F srv engine⟩
  · rcases CreateEngine_cases F srv engine with ⟨h1, h2⟩ | ⟨h1, eng, h2⟩
    · rw [h1, h2]
      constructor
      · intro h
        exact Bool.noConfusion h
      · rintro ⟨eng, h⟩
        have := congrArg List.length h
        simp at this
    · rw [h1, h2]
      exact ⟨fun _ => ⟨eng, rfl⟩, fun _ => rfl⟩
  · intro hf
    rcases CreateEngine_cases F srv engine with ⟨_, h2⟩ | ⟨h1, _, _⟩
    · exact h2
    · rw [hf] at h1
      exact Bool.noConfusion h1

/-- Witness of C20: on a server that holds one engine, `"dabc:1237"` names a
class the example loader does not find, and the registry stays as it was. -/
theorem CreateEngine_registry_witness :
    (CreateEngine exampleFactory { exampleServer with fEngines := [8080] }
      (some "dabc:1237".toList)).2.fEngines = [8080] :=
  congrArg THttpServer.fEngines
    ((CreateEngine_registry exampleFactory { exampleServer with fEngines := [8080] }
      (some "dabc:1237".toList)).2.1 (by decide))

theorem strchr_first (scheme arg : Str) (c : Char) (h : c ∉ scheme) :
    strchr (scheme ++ c :: arg) c = some scheme.length := by
  induction scheme with
  | nil => simp [strchr]
  | cons d ds ih =>
    have hd : ¬ d = c := fun hc => h (by rw [hc]; exact List.mem_cons_self _ _)
    have hds : c ∉ ds := fun hc => h (List.mem_cons_of_mem _ hc)
    show strchr (d :: (ds ++ c :: arg)) c = some (ds.length + 1)
    rw [strchr, if_neg hd, ih hds]
    rfl

theorem CreateEngine_of_scheme {σ κ ε : Type} (F : EngineFactory κ ε) (srv : THttpServer σ ε)
    (scheme arg : Str) (h : ':' ∉ scheme) :
    CreateEngine F srv (some (scheme ++ ':' :: arg)) =
      match F.LoadClass (engineClassName scheme) with
      | none => (false, srv)
      | some engine_class =>
        match F.New engine_class with
        | none => (false, srv)
        | some eng =>
          if (F.Create (F.SetServer eng) arg).1 = true then
            (true, { srv with fEngines := srv.fEngines ++ [(F.Create (F.SetServer eng) arg).2] })
          else (false, srv) := by
  have h1 : strchr (scheme ++ ':' :: arg) ':' = some scheme.length := strchr_first scheme arg ':' h
  have h2 : (if scheme.length ≠ 0 then (scheme ++ ':' :: arg).take scheme.length else [])
      = scheme := by
    cases scheme with
    | nil => rfl
    | cons d ds =>
      rw [if_pos (by simp)]
      exact List.take_left _ _
  have h3 : (scheme ++ ':' :: arg).drop (scheme.length + 1) = arg := by
    rw [← List.drop_drop, List.drop_left]
    rfl
  simp only [CreateEngine, h1, h2, h3]
  cases F.LoadClass (engineClassName scheme) with
  | none => rfl
  | some engine_class =>
    dsimp only
    cases F.New engine_class with
    | none => rfl
    | some eng =>
      dsimp only
      cases hc : (F.Create (F.SetServer eng) arg).1 <;> simp

/-- C21. For an engine specification with a `':'`, written as the text before
its first `':'` (the scheme, which holds no `':'`), the `':'`, and the rest:
the class loaded is the one named by the scheme (`TCivetweb` for the empty
scheme, `"http"` and `"civetweb"`, `TFastCgi` for `"fastcgi"`, `TDabcEngine` for
`"dabc"`), and `Create` gets exactly the rest. So `"civetweb:8090"`,
`"http:8090"` and `":8090"` all do the same: an engine of class `TCivetweb`
created with the argument `"8090"`. -/
theorem CreateEngine_scheme_argument {σ κ ε : Type} (F : EngineFactory κ ε)
    (srv : THttpServer σ ε) (scheme arg : Str) (h : ':' ∉ scheme) :
    (CreateEngine F srv (some (scheme ++ ':' :: arg)) =
      match F.LoadClass (engineClassName scheme) with
      | none => (false, srv)
      | some engine_class =>
        match F.New engine_class with
        | none => (false, srv)
        | some eng =>
          if (F.Create (F.SetServer eng) arg).1 = true then
            (true, { srv with fEngines := srv.fEngines ++ [(F.Create (F.SetServer eng) arg).2] })
          else (false, srv)) ∧
    (engineClassName [] = "TCivetweb".toList ∧
     engineClassName "http".toList = "TCivetweb".toList ∧
     engineClassName "civetweb".toList = "TCivetweb".toList ∧
     engineClassName "fastcgi".toList = "TFastCgi".toList ∧
     engineClassName "dabc".toList = "TDabcEngine".toList) ∧
    (CreateEngine F srv (some "civetweb:8090".toList) = CreateEngine F srv (some ":8090".toList) ∧
     CreateEngine F srv (some "http:8090".toList) = CreateEngine F srv (some ":8090".toList)) := by
  refine ⟨CreateEngine_of_scheme F srv scheme arg h, by decide, ?_, ?_⟩
  · have e1 := CreateEngine_of_scheme F srv "civetweb".toList "8090".toList (by decide)
    have e2 := CreateEngine_of_scheme F srv [] "8090".toList (by decide)
    exact e1.trans e2.symm
  · have e1 := CreateEngine_of_scheme F srv "http".toList "8090".toList (by decide)
    have e2 := CreateEngine_of_scheme F srv [] "8090".toList (by decide)
    exact e1.trans e2.symm

/-- Witness of C21: `"fastcgi:9000"` with the example loader, whose `Create`
takes the number of digits as the port. -/
theorem CreateEngine_scheme_argument_witness :
    CreateEngine exampleFactory exampleServer (some "fastcgi:9000".toList)
      = (true, { exampleServer with fEngines := [4] }) :=
  (CreateEngine_scheme_argument exampleFactory exampleServer "fastcgi".toList "9000".toList
    (by decide)).1

/-! ## The virtual paths and the router: further claims -/

theorem rfind_isSome_iff (u pat : Str) : (∃ pos, rfind u pat = some pos) ↔ pat <:+: u := by
  constructor
  · rintro ⟨pos, h⟩
    by_contra hc
    rw [(rfind_eq_none_iff u pat).mpr hc] at h
    exact Option.noConfusion h
  · intro h
    exact Option.ne_none_iff_exists'.mp (fun hc => (rfind_eq_none_iff u pat).mp hc h)

/-- C22. `IsFileRequested` returns true if and only if the uri is not null, is
not empty and contains `"httpsys/"`, or contains `"rootsys/"` while the
host-installation root is non-empty, or contains `"jsrootiosys/"` while the
scripting-support root is non-empty. A null or empty uri is unmatched and `res`
is left as it was. -/
theorem IsFileRequested_true_iff {σ ε : Type} (srv : THttpServer σ ε) (uri : Option Str)
    (res : Str) :
    ((IsFileRequested srv uri res).1 = true ↔
      ∃ u, uri = some u ∧ u ≠ [] ∧
        ("httpsys/".toList <:+: u ∨
         (srv.fRootSys ≠ [] ∧ "rootsys/".toList <:+: u) ∨
         (srv.fJSRootIOSys ≠ [] ∧ "jsrootiosys/".toList <:+: u))) ∧
    IsFileRequested srv none res = (false, res) ∧
    IsFileRequested srv (some []) res = (false, res) := by
  refine ⟨?_, rfl, rfl⟩
  cases uri with
  | none =>
    constructor
    · intro h
      exact Bool.noConfusion h
    · rintro ⟨u, hu, _⟩
      exact Option.noConfusion hu
  | some u =>
    have hex : (∃ v, some u = some v ∧ v ≠ [] ∧
        ("httpsys/".toList <:+: v ∨
         (srv.fRootSys ≠ [] ∧ "rootsys/".toList <:+: v) ∨
         (srv.fJSRootIOSys ≠ [] ∧ "jsrootiosys/".toList <:+: v))) ↔
        (u ≠ [] ∧
        ("httpsys/".toList <:+: u ∨
         (srv.fRootSys ≠ [] ∧ "rootsys/".toList <:+: u) ∨
         (srv.fJSRootIOSys ≠ [] ∧ "jsrootiosys/".toList <:+: u))) := by
      constructor
      · rintro ⟨v, hv, h⟩
        cases hv
        exact h
      · intro h
        exact ⟨u, rfl, h⟩
    rw [hex]
    by_cases hlen : u.length = 0
    · have hu : u = [] := List.length_eq_zero.mp hlen
      subst hu
      constructor
      · intro h
        exact Bool.noConfusion h
      · rintro ⟨h, _⟩
        exact absurd rfl h
    · have hune : u ≠ [] := fun hc => hlen (by rw [hc]; rfl)
      cases h1 : rfind u "httpsys/".toList with
      | some pos =>
        have hi : "httpsys/".toList <:+: u := (rfind_isSome_iff _ _).mp ⟨pos, h1⟩
        simp only [IsFileRequested, if_neg hlen, h1]
        exact ⟨fun _ => ⟨hune, Or.inl hi⟩, fun _ => trivial⟩
      | none =>
        have hi1 : ¬ "httpsys/".toList <:+: u := (rfind_eq_none_iff _ _).mp h1
        cases h2 : (if srv.fRootSys.isEmpty then none else rfind u "rootsys/".toList) with
        | some pos =>
          have hr : srv.fRootSys ≠ [] ∧ "rootsys/".toList <:+: u := by
            by_cases he : srv.fRootSys.isEmpty = true
            · rw [if_pos he] at h2
              exact Option.noConfusion h2
            · rw [if_neg he] at h2
              exact ⟨fun hc => he (by rw [hc]; rfl), (rfind_isSome_iff _ _).mp ⟨pos, h2⟩⟩
          simp only [IsFileRequested, if_neg hlen, h1, h2]
          exact ⟨fun _ => ⟨hune, Or.inr (Or.inl hr)⟩, fun _ => trivial⟩
        | none =>
          have hr : ¬ (srv.fRootSys ≠ [] ∧ "rootsys/".toList <:+: u) := by
            rintro ⟨hne, hin⟩
            have he : ¬ srv.fRootSys.isEmpty = true := fun hc => hne (List.isEmpty_iff.mp hc)
            rw [if_neg he] at h2
            exact (rfind_eq_none_iff _ _).mp h2 hin
          cases h3 : (if srv.fJSRootIOSys.isEmpty then none
              else rfind u "jsrootiosys/".toList) with
          | some pos =>
            have hj : srv.fJSRootIOSys ≠ [] ∧ "jsrootiosys/".toList <:+: u := by
              by_cases he : srv.fJSRootIOSys.isEmpty = true
              · rw [if_pos he] at h3
                exact Option.noConfusion h3
              · rw [if_neg he] at h3
                exact ⟨fun hc => he (by rw [hc]; rfl), (rfind_isSome_iff _ _).mp ⟨pos, h3⟩⟩
            simp only [IsFileRequested, if_neg hlen, h1, h2, h3]
            exact ⟨fun _ => ⟨hune, Or.inr (Or.inr hj)⟩, fun _ => trivial⟩
          | none =>
            have hj : ¬ (srv.fJSRootIOSys ≠ [] ∧ "jsrootiosys/".toList <:+: u) := by
              rintro ⟨hne, hin⟩
              have he : ¬ srv.fJSRootIOSys.isEmpty = true :=
                fun hc => hne (List.isEmpty_iff.mp hc)
              rw [if_neg he] at h3
              exact (rfind_eq_none_iff _ _).mp h3 hin
            simp only [IsFileRequested, if_neg hlen, h1, h2, h3]
            constructor
            · intro h
              exact Bool.noConfusion h
            · rintro ⟨_, h | h | h⟩
              · exact absurd h hi1
              · exact absurd h hr
              · exact absurd h hj

theorem topname_eq {σ ε : Type} (srv : THttpServer σ ε) (arg : THttpCallArg) :
    topname srv arg = if arg.fTopName ≠ [] then arg.fTopName else srv.fTopName := by
  unfold topname
  cases arg.fTopName <;> simp

theorem ProcessRequest_of_h_xml {σ ε : Type} (K : ContentTags) (S : TRootSniffer σ)
    (srv : THttpServer σ ε) (arg : THttpCallArg) (h : arg.fFileName = "h.xml".toList) :
    ProcessRequest K S srv arg =
      { arg := THttpCallArg.SetXml K { arg with
          fContent := xmlHeader arg.fPathName ++
            S.ScanHierarchy srv.fSniffer (topname srv arg) arg.fPathName StoreKind.xml ++
            "</dabc>\n".toList },
        sniffer := srv.fSniffer,
        trace := [Event.scanHierarchy (topname srv arg) arg.fPathName StoreKind.xml] } := by
  have hc : ¬ (arg.fFileName.isEmpty || decide (arg.fFileName = "index.htm".toList)) = true := by
    rw [h]; decide
  have hf : (IsFileRequested srv (some arg.fFileName) arg.fFileName).1 = false := by
    rw [h]; exact IsFileRequested_h_xml srv _
  unfold ProcessRequest
  rw [if_neg hc]
  simp only [hf, Bool.false_eq_true, if_false, if_pos h]

theorem ProcessRequest_of_h_json {σ ε : Type} (K : ContentTags) (S : TRootSniffer σ)
    (srv : THttpServer σ ε) (arg : THttpCallArg) (h : arg.fFileName = "h.json".toList) :
    ProcessRequest K S srv arg =
      { arg := THttpCallArg.SetJson K { arg with
          fContent := arg.fContent ++ "\x7b\n".toList ++
            S.ScanHierarchy srv.fSniffer (topname srv arg) arg.fPathName StoreKind.json ++
            "\n\x7d\n".toList },
        sniffer := srv.fSniffer,
        trace := [Event.scanHierarchy (topname srv arg) arg.fPathName StoreKind.json] } := by
  have hc : ¬ (arg.fFileName.isEmpty || decide (arg.fFileName = "index.htm".toList)) = true := by
    rw [h]; decide
  have hx : ¬ arg.fFileName = "h.xml".toList := by
    rw [h]; decide
  have hf : (IsFileRequested srv (some arg.fFileName) arg.fFileName).1 = false := by
    rw [h]; exact IsFileRequested_h_json srv _
  unfold ProcessRequest
  rw [if_neg hc]
  simp only [hf, Bool.false_eq_true, if_false, if_neg hx, if_pos h]

/-- C23. For a request with file name `"h.xml"` or `"h.json"`, the one call made
on the sniffer is the hierarchy walk over the path of the request, with the
store of the format, and the name it is handed is the top-name override of the
request when that is non-empty and the top name of the server otherwise; the
text of that walk is what goes into the body. -/
theorem ProcessRequest_walk_topname {σ ε : Type} (K : ContentTags) (S : TRootSniffer σ)
    (srv : THttpServer σ ε) (arg : THttpCallArg) :
    (arg.fFileName = "h.xml".toList →
      (ProcessRequest K S srv arg).trace =
        [Event.scanHierarchy (if arg.fTopName ≠ [] then arg.fTopName else srv.fTopName)
           arg.fPathName StoreKind.xml] ∧
      S.ScanHierarchy srv.fSniffer (if arg.fTopName ≠ [] then arg.fTopName else srv.fTopName)
           arg.fPathName StoreKind.xml <:+: (ProcessRequest K S srv arg).arg.fContent) ∧
    (arg.fFileName = "h.json".toList →
      (ProcessRequest K S srv arg).trace =
        [Event.scanHierarchy (if arg.fTopName ≠ [] then arg.fTopName else srv.fTopName)
           arg.fPathName StoreKind.json] ∧
      S.ScanHierarchy srv.fSniffer (if arg.fTopName ≠ [] then arg.fTopName else srv.fTopName)
           arg.fPathName StoreKind.json <:+: (ProcessRequest K S srv arg).arg.fContent) := by
  constructor
  · intro h
    rw [ProcessRequest_of_h_xml K S srv arg h, ← topname_eq]
    exact ⟨rfl, xmlHeader arg.fPathName, "</dabc>\n".toList, rfl⟩
  · intro h
    rw [ProcessRequest_of_h_json K S srv arg h, ← topname_eq]
    exact ⟨rfl, arg.fContent ++ "\x7b\n".toList, "\n\x7d\n".toList, by
      simp [THttpCallArg.SetJson, THttpCallArg.SetContentType]⟩

/-- Witness of C23: an `"h.json"` request with the override `"TOPX"` and an
`"h.xml"` request without override, on the example server whose top name is
`"ROOT"`. -/
theorem ProcessRequest_walk_topname_witness :
    (ProcessRequest exampleTags exampleSniffer exampleServer
      (request "sub" "h.json" "TOPX")).trace
      = [Event.scanHierarchy "TOPX".toList "sub".toList StoreKind.json] ∧
    (ProcessRequest exampleTags exampleSniffer exampleServer
      (request "sub" "h.xml" "")).trace
      = [Event.scanHierarchy "ROOT".toList "sub".toList StoreKind.xml] :=
  ⟨((ProcessRequest_walk_topname exampleTags exampleSniffer exampleServer
      (request "sub" "h.json" "TOPX")).2 rfl).1,
   ((ProcessRequest_walk_topname exampleTags exampleSniffer exampleServer
      (request "sub" "h.xml" "")).1 rfl).1⟩

theorem SetPathAndFileName_fFileName_no_slash (a : THttpCallArg) (P : Option Str) :
    '/' ∉ (a.SetPathAndFileName P).fFileName := by
  cases P with
  | none => simp [THttpCallArg.SetPathAndFileName]
  | some s =>
    cases hr : strrchr s '/' with
    | none =>
      have hs : '/' ∉ s := (strrchr_eq_none_iff s '/').mp hr
      simpa [THttpCallArg.SetPathAndFileName, hr] using hs
    | some r =>
      rw [(SetPathAndFileName_of_rslash a s r hr).2]
      exact (strrchr_some s '/' r hr).2

theorem not_infix_of_not_mem (pat u : Str) (c : Char) (hc : c ∈ pat) (hu : c ∉ u) :
    ¬ pat <:+: u :=
  fun h => hu (h.subset hc)

theorem IsFileRequested_of_no_token {σ ε : Type} (srv : THttpServer σ ε) (uri res : Str)
    (h1 : ¬ "httpsys/".toList <:+: uri) (h2 : ¬ "rootsys/".toList <:+: uri)
    (h3 : ¬ "jsrootiosys/".toList <:+: uri) :
    IsFileRequested srv (some uri) res = (false, res) := by
  have r1 : rfind uri "httpsys/".toList = none := (rfind_eq_none_iff _ _).mpr h1
  have r2 : (if srv.fRootSys.isEmpty then none else rfind uri "rootsys/".toList) = none := by
    rw [(rfind_eq_none_iff _ _).mpr h2]; split_ifs <;> rfl
  have r3 : (if srv.fJSRootIOSys.isEmpty then none
      else rfind uri "jsrootiosys/".toList) = none := by
    rw [(rfind_eq_none_iff _ _).mpr h3]; split_ifs <;> rfl
  simp only [IsFileRequested, r1, r2, r3]
  split_ifs <;> rfl

theorem ProcessRequest_trace_ne_nil {σ ε : Type} (K : ContentTags) (S : TRootSniffer σ)
    (srv : THttpServer σ ε) (arg : THttpCallArg)
    (hf : (IsFileRequested srv (some arg.fFileName) arg.fFileName).1 = false) :
    (ProcessRequest K S srv arg).trace ≠ [] := by
  unfold ProcessRequest
  dsimp only
  rw [hf]
  split_ifs <;> first | contradiction | simp

/-- C24. Whatever the raw path (null included) and the three roots, the file
name computed by `SetPathAndFileName` holds no `'/'`, so `IsFileRequested`
returns false for it and leaves `res` as it was; `ProcessRequest` then does not
take its static-file branch, the only one that makes no call on the sniffer. -/
theorem SetPathAndFileName_never_file_requested {σ ε : Type} (K : ContentTags)
    (S : TRootSniffer σ) (srv : THttpServer σ ε) (a : THttpCallArg) (P : Option Str)
    (res : Str) :
    '/' ∉ (a.SetPathAndFileName P).fFileName ∧
    IsFileRequested srv (some (a.SetPathAndFileName P).fFileName) res = (false, res) ∧
    (ProcessRequest K S srv (a.SetPathAndFileName P)).trace ≠ [] := by
  have hs := SetPathAndFileName_fFileName_no_slash a P
  have hfile : ∀ r : Str,
      IsFileRequested srv (some (a.SetPathAndFileName P).fFileName) r = (false, r) := fun r =>
    IsFileRequested_of_no_token srv _ r
      (not_infix_of_not_mem _ _ '/' (by decide) hs)
      (not_infix_of_not_mem _ _ '/' (by decide) hs)
      (not_infix_of_not_mem _ _ '/' (by decide) hs)
  refine ⟨hs, hfile res, ?_⟩
  apply ProcessRequest_trace_ne_nil
  rw [hfile]

/-- C25. For an entry of the built-in table, `GetMimeType` of the extension
alone is the default `"text/plain"`: no entry of the table matches it, as an
entry matches only a name that is longer than its `ext_len` and ends with its
extension. -/
theorem GetMimeType_extension_alone (entry : Str × Nat × Str)
    (hmem : entry ∈ builtin_mime_types) :
    GetMimeType entry.1 = "text/plain".toList ∧
    ∀ e ∈ builtin_mime_types,
      ¬ (e.2.1 < entry.1.length ∧ entry.1.drop (entry.1.length - e.2.1) = e.1) := by
  have hno : ∀ e ∈ builtin_mime_types,
      ¬ (e.2.1 < entry.1.length ∧ entry.1.drop (entry.1.length - e.2.1) = e.1) := by
    intro e he hc
    obtain ⟨hlt, hd⟩ := hc
    have hsuf : e.1 <:+ entry.1 := by
      rw [← hd]
      exact List.drop_suffix _ _
    have heq : e = entry := builtin_mime_types_suffix_free e he entry hmem hsuf
    have hlen : e.2.1 = e.1.length := builtin_mime_types_ext_len e he
    rw [heq] at hlen hlt
    omega
  refine ⟨?_, hno⟩
  have key : ∀ tbl : List (Str × Nat × Str),
      (∀ e ∈ tbl, ¬ (e.2.1 < entry.1.length ∧ entry.1.drop (entry.1.length - e.2.1) = e.1)) →
      GetMimeTypeLoop entry.1 tbl = "text/plain".toList := by
    intro tbl
    induction tbl with
    | nil => intro _; rfl
    | cons e rest ih =>
      intro h
      obtain ⟨extension, ext_len, mime_type⟩ := e
      have hrest := ih (fun x hx => h x (List.mem_cons_of_mem _ hx))
      have hhead := h _ (List.mem_cons_self _ _)
      by_cases hle : entry.1.length ≤ ext_len
      · simp only [GetMimeTypeLoop, if_pos hle, hrest]
      · have hne : ¬ entry.1.drop (entry.1.length - ext_len) = extension :=
          fun hc => hhead ⟨Nat.lt_of_not_le hle, hc⟩
        simp only [GetMimeTypeLoop, if_neg hle, if_neg hne, hrest]
  exact key builtin_mime_types hno

/-- Witness of C25: `".pdf"` alone. -/
theorem GetMimeType_extension_alone_witness :
    GetMimeType ".pdf".toList = "text/plain".toList :=
  (GetMimeType_extension_alone (".pdf".toList, 4, "application/pdf".toList) (by decide)).1

end HttpServer
